import Mathlib

/-!
Verification development for the EuphoriaParties party registry
(`models.py`, `party_manager.py`, `storage.py`).

Python dictionaries are modelled as association lists in insertion order
(`dset` updates an existing key in place, else appends, exactly like a
Python dict assignment); Python sets are modelled as duplicate-free lists
in some iteration order (`listInsert` / `sremove` mirror `set.add` /
`set.discard`; set iteration order is unspecified in Python, so any
concrete order is a valid refinement).  Player and party identifiers
(`uuid.UUID` values) are modelled as natural numbers below `2^128`,
together with their canonical lowercase-hex string form (`uuidStr`) and a
model of CPython's UUID-string parsing (`uuidPyParse`).
-/

namespace Euphoria

/-- Python `dict.get(k)`: first binding for `k` (keys are unique in a dict). -/
def dlookup {K V : Type} [DecidableEq K] : List (K × V) → K → Option V
  | [], _ => none
  | (k0, v0) :: rest, k => if k0 = k then some v0 else dlookup rest k

/-- Python `d[k] = v`: replace the binding in place, else append. -/
def dset {K V : Type} [DecidableEq K] : List (K × V) → K → V → List (K × V)
  | [], k, v => [(k, v)]
  | (k0, v0) :: rest, k, v =>
      if k0 = k then (k, v) :: rest else (k0, v0) :: dset rest k v

/-- Python `d.pop(k, None)`: drop the binding for `k` (keys are unique). -/
def dpop {K V : Type} [DecidableEq K] : List (K × V) → K → List (K × V)
  | [], _ => []
  | (k0, v0) :: rest, k =>
      if k0 = k then dpop rest k else (k0, v0) :: dpop rest k

/-- Python `d.setdefault(k, v)`: insert only when the key is absent. -/
def dsetdefault {K V : Type} [DecidableEq K] (m : List (K × V)) (k : K) (v : V) :
    List (K × V) :=
  match dlookup m k with
  | some _ => m
  | none => m ++ [(k, v)]

/-- Python `set.add`: no-op when already present, else becomes part of the
iteration order. -/
def listInsert {α : Type} [DecidableEq α] (xs : List α) (x : α) : List α :=
  if x ∈ xs then xs else xs ++ [x]

/-- Python `set.discard`. -/
def sremove {α : Type} [DecidableEq α] (xs : List α) (x : α) : List α :=
  xs.filter (fun y => y ≠ x)

@[simp] theorem dlookup_nil {K V : Type} [DecidableEq K] (k : K) :
    dlookup ([] : List (K × V)) k = none := rfl

theorem dlookup_cons {K V : Type} [DecidableEq K] (k0 k : K) (v0 : V)
    (rest : List (K × V)) :
    dlookup ((k0, v0) :: rest) k =
      if k0 = k then some v0 else dlookup rest k := rfl

@[simp] theorem dlookup_dset_self {K V : Type} [DecidableEq K]
    (m : List (K × V)) (k : K) (v : V) : dlookup (dset m k v) k = some v := by
  induction m with
  | nil => simp [dset, dlookup]
  | cons kv rest ih =>
    obtain ⟨k0, v0⟩ := kv
    by_cases h : k0 = k <;> simp [dset, dlookup, h, ih]

theorem dlookup_dset_ne {K V : Type} [DecidableEq K]
    (m : List (K × V)) (k k' : K) (v : V) (h : k ≠ k') :
    dlookup (dset m k v) k' = dlookup m k' := by
  induction m with
  | nil => simp [dset, dlookup, h]
  | cons kv rest ih =>
    obtain ⟨k0, v0⟩ := kv
    by_cases h0 : k0 = k
    · subst h0; simp [dset, dlookup, h]
    · simp [dset, dlookup, h0, ih]

@[simp] theorem dlookup_dpop_self {K V : Type} [DecidableEq K]
    (m : List (K × V)) (k : K) : dlookup (dpop m k) k = none := by
  induction m with
  | nil => rfl
  | cons kv rest ih =>
    obtain ⟨k0, v0⟩ := kv
    by_cases h : k0 = k
    · simpa [dpop, h] using ih
    · simpa [dpop, h, dlookup, h] using ih

theorem dpop_eq_filter {K V : Type} [DecidableEq K]
    (m : List (K × V)) (k : K) :
    dpop m k = m.filter (fun kv => kv.1 ≠ k) := by
  induction m with
  | nil => rfl
  | cons kv rest ih =>
    obtain ⟨k0, v0⟩ := kv
    by_cases h0 : k0 = k <;> simp [dpop, h0, List.filter_cons, ih]

theorem dlookup_dpop_ne {K V : Type} [DecidableEq K]
    (m : List (K × V)) (k k' : K) (h : k ≠ k') :
    dlookup (dpop m k) k' = dlookup m k' := by
  induction m with
  | nil => rfl
  | cons kv rest ih =>
    obtain ⟨k0, v0⟩ := kv
    by_cases h0 : k0 = k
    · have e1 : dpop ((k0, v0) :: rest) k = dpop rest k := by simp [dpop, h0]
      have h1 : k0 ≠ k' := by rw [h0]; exact h
      have e2 : dlookup ((k0, v0) :: rest) k' = dlookup rest k' := by
        simp [dlookup, h1]
      rw [e1, e2, ih]
    · have e1 : dpop ((k0, v0) :: rest) k = (k0, v0) :: dpop rest k := by
        simp [dpop, h0]
      rw [e1]
      by_cases h1 : k0 = k'
      · simp [dlookup, h1]
      · simp [dlookup, h1, ih]

theorem mem_dpop {K V : Type} [DecidableEq K]
    (m : List (K × V)) (k k' : K) (v : V) :
    (k', v) ∈ dpop m k ↔ (k', v) ∈ m ∧ k' ≠ k := by
  rw [dpop_eq_filter]
  simp [List.mem_filter]

theorem dlookup_dpop_of_lookup {K V : Type} [DecidableEq K]
    (m : List (K × V)) (k k' : K) (v : V)
    (h : dlookup (dpop m k) k' = some v) : dlookup m k' = some v := by
  by_cases hk : k = k'
  · subst hk; simp at h
  · rwa [dlookup_dpop_ne m k k' hk] at h

theorem dlookup_append_single {K V : Type} [DecidableEq K]
    (m : List (K × V)) (k k' : K) (v v' : V)
    (h : dlookup (m ++ [(k, v)]) k' = some v') :
    dlookup m k' = some v' ∨ (k' = k ∧ v' = v) := by
  induction m with
  | nil =>
    by_cases hk : k = k'
    · rw [List.nil_append, dlookup_cons, if_pos hk] at h
      cases h
      exact Or.inr ⟨hk.symm, rfl⟩
    · rw [List.nil_append, dlookup_cons, if_neg hk] at h
      cases h
  | cons kv rest ih =>
    obtain ⟨k0, v0⟩ := kv
    by_cases h0 : k0 = k'
    · rw [List.cons_append, dlookup_cons, if_pos h0] at h
      left
      rw [dlookup_cons, if_pos h0]
      exact h
    · rw [List.cons_append, dlookup_cons, if_neg h0] at h
      rcases ih h with h1 | h1
      · left
        rw [dlookup_cons, if_neg h0]
        exact h1
      · exact Or.inr h1

theorem dlookup_dsetdefault_cases {K V : Type} [DecidableEq K]
    (m : List (K × V)) (k k' : K) (v : V) {v' : V}
    (h : dlookup (dsetdefault m k v) k' = some v') :
    dlookup m k' = some v' ∨ (k' = k ∧ v' = v) := by
  unfold dsetdefault at h
  cases hm : dlookup m k with
  | some w => rw [hm] at h; exact Or.inl h
  | none =>
    rw [hm] at h
    exact dlookup_append_single m k k' v v' h

theorem mem_listInsert {α : Type} [DecidableEq α] (xs : List α) (x y : α) :
    y ∈ listInsert xs x ↔ y ∈ xs ∨ y = x := by
  unfold listInsert
  by_cases h : x ∈ xs
  · simp [h]
    intro hy; subst hy; exact h
  · simp [h, or_comm]

theorem mem_listInsert_self {α : Type} [DecidableEq α] (xs : List α) (x : α) :
    x ∈ listInsert xs x := (mem_listInsert xs x x).mpr (Or.inr rfl)

theorem mem_listInsert_of_mem {α : Type} [DecidableEq α] {xs : List α} {x y : α}
    (h : y ∈ xs) : y ∈ listInsert xs x := (mem_listInsert xs x y).mpr (Or.inl h)

theorem mem_sremove {α : Type} [DecidableEq α] (xs : List α) (x y : α) :
    y ∈ sremove xs x ↔ y ∈ xs ∧ y ≠ x := by
  simp [sremove]

theorem sremove_subset {α : Type} [DecidableEq α] {xs : List α} {x y : α}
    (h : y ∈ sremove xs x) : y ∈ xs := ((mem_sremove xs x y).mp h).1

theorem dlookup_mem {K V : Type} [DecidableEq K]
    {m : List (K × V)} {k : K} {v : V}
    (h : dlookup m k = some v) : (k, v) ∈ m := by
  induction m with
  | nil => simp at h
  | cons kv rest ih =>
    obtain ⟨k0, v0⟩ := kv
    by_cases h0 : k0 = k
    · subst h0
      simp [dlookup] at h
      simp [h]
    · simp [dlookup, h0] at h
      exact List.mem_cons_of_mem _ (ih h)

theorem dlookup_filter_prop {K V : Type} [DecidableEq K]
    (p : K × V → Bool) {m : List (K × V)} {k : K} {v : V}
    (h : dlookup (m.filter p) k = some v) : p (k, v) = true :=
  (List.mem_filter.mp (dlookup_mem h)).2

/-! ### UUID identifiers

`uuid.UUID` values are 128-bit integers.  `uuidStr` is CPython's
`str(UUID)`: 32 lowercase hex digits in 8-4-4-4-12 groups.  `uuidPyParse`
models `UUID(string)` as used by `_parse_uuid` in `models.py`: CPython
strips surrounding braces and all dashes and then requires exactly 32 hex
digits (case-insensitive).  CPython additionally tolerates `urn:uuid:`
prefixes and underscore separators inside `int(_, 16)`; those accepted
forms never arise from this codebase's own serialisation and are not
modelled. -/

/-- The identifier space of `uuid.UUID` (naturals below `2^128`). -/
abbrev Uuid := Nat

def hexDigitChar (n : Nat) : Char :=
  if n < 10 then Char.ofNat (48 + n) else Char.ofNat (87 + n)

def hexCharVal (c : Char) : Option Nat :=
  let n := c.toNat
  if 48 ≤ n ∧ n ≤ 57 then some (n - 48)
  else if 97 ≤ n ∧ n ≤ 102 then some (n - 87)
  else if 65 ≤ n ∧ n ≤ 70 then some (n - 55)
  else none

/-- Fixed-width big-endian hex rendering (`"%032x"`). -/
def hexPad : Nat → Nat → List Char
  | 0, _ => []
  | k + 1, n => hexPad k (n / 16) ++ [hexDigitChar (n % 16)]

/-- `int(hex_string, 16)` on already-validated hex digits. -/
def foldHex : Option Nat → List Char → Option Nat
  | acc, [] => acc
  | some a, c :: rest =>
      match hexCharVal c with
      | some d => foldHex (some (a * 16 + d)) rest
      | none => none
  | none, _ :: _ => none

def uuidStrList (u : Uuid) : List Char :=
  let h := hexPad 32 u
  h.take 8 ++ '-' :: ((h.drop 8).take 4 ++ '-' :: ((h.drop 12).take 4 ++
    '-' :: ((h.drop 16).take 4 ++ '-' :: h.drop 20)))

/-- `str(uuid)`: canonical lowercase hex with dashes. -/
def uuidStr (u : Uuid) : String := String.mk (uuidStrList u)

def isBrace (c : Char) : Bool := c == Char.ofNat 123 || c == Char.ofNat 125

/-- Python `str.strip("\x7b\x7d")`. -/
def stripBraces (cs : List Char) : List Char :=
  ((cs.dropWhile isBrace).reverse.dropWhile isBrace).reverse

/-- `_parse_uuid` in `models.py` via CPython `UUID(str(value))` (see note above). -/
def uuidPyParse (s : String) : Option Uuid :=
  let cs := (stripBraces s.data).filter (fun c => c ≠ '-')
  if cs.length = 32 then foldHex (some 0) cs else none

theorem hexCharVal_hexDigitChar {m : Nat} (h : m < 16) :
    hexCharVal (hexDigitChar m) = some m := by
  interval_cases m <;> rfl

theorem hexDigitChar_ne_dash {m : Nat} (h : m < 16) : hexDigitChar m ≠ '-' := by
  interval_cases m <;> decide

theorem hexDigitChar_not_brace {m : Nat} (h : m < 16) :
    isBrace (hexDigitChar m) = false := by
  interval_cases m <;> rfl

theorem hexPad_length (k n : Nat) : (hexPad k n).length = k := by
  induction k generalizing n with
  | zero => rfl
  | succ k ih => simp [hexPad, ih]

theorem hexPad_mem {k n : Nat} {c : Char} (h : c ∈ hexPad k n) :
    ∃ m, m < 16 ∧ c = hexDigitChar m := by
  induction k generalizing n with
  | zero => simp [hexPad] at h
  | succ k ih =>
    simp only [hexPad, List.mem_append, List.mem_singleton] at h
    rcases h with h | h
    · exact ih h
    · exact ⟨n % 16, Nat.mod_lt _ (by omega), h⟩

theorem foldHex_hexPad (k : Nat) :
    ∀ (n a : Nat) (rest : List Char), n < 16 ^ k →
      foldHex (some a) (hexPad k n ++ rest) =
        foldHex (some (a * 16 ^ k + n)) rest := by
  induction k with
  | zero =>
    intro n a rest hn
    have : n = 0 := by omega
    subst this
    simp [hexPad]
  | succ k ih =>
    intro n a rest hn
    have h16 : (16 : Nat) ^ (k + 1) = 16 ^ k * 16 := pow_succ 16 k
    have hdiv : n / 16 < 16 ^ k := by omega
    have hmod : n % 16 < 16 := Nat.mod_lt _ (by omega)
    rw [show hexPad (k + 1) n ++ rest =
          hexPad k (n / 16) ++ (hexDigitChar (n % 16) :: rest) by
        simp [hexPad]]
    rw [ih (n / 16) a _ hdiv]
    rw [show foldHex (some (a * 16 ^ k + n / 16)) (hexDigitChar (n % 16) :: rest) =
          foldHex (some ((a * 16 ^ k + n / 16) * 16 + n % 16)) rest by
        simp [foldHex, hexCharVal_hexDigitChar hmod]]
    congr 2
    have hdm : 16 * (n / 16) + n % 16 = n := Nat.div_add_mod n 16
    calc (a * 16 ^ k + n / 16) * 16 + n % 16
        = a * (16 ^ k * 16) + (16 * (n / 16) + n % 16) := by ring
      _ = a * (16 ^ k * 16) + n := by rw [hdm]
      _ = a * 16 ^ (k + 1) + n := by rw [h16]

theorem dropWhile_eq_self_of_all {p : Char → Bool} {cs : List Char}
    (h : ∀ c ∈ cs, p c = false) : cs.dropWhile p = cs := by
  cases cs with
  | nil => rfl
  | cons c rest =>
    exact List.dropWhile_cons_of_neg (by simp [h c (List.mem_cons_self c rest)])

theorem stripBraces_eq_self {cs : List Char}
    (h : ∀ c ∈ cs, isBrace c = false) : stripBraces cs = cs := by
  unfold stripBraces
  rw [dropWhile_eq_self_of_all h]
  rw [dropWhile_eq_self_of_all (fun c hc => h c (List.mem_reverse.mp hc))]
  exact List.reverse_reverse cs

theorem uuidStrList_mem {u : Uuid} {c : Char} (h : c ∈ uuidStrList u) :
    c = '-' ∨ ∃ m, m < 16 ∧ c = hexDigitChar m := by
  unfold uuidStrList at h
  simp only [List.mem_append, List.mem_cons] at h
  have hh : ∀ {d : Char}, d ∈ hexPad 32 u → d = '-' ∨ ∃ m, m < 16 ∧ d = hexDigitChar m :=
    fun hd => Or.inr (hexPad_mem hd)
  rcases h with h | h | h | h | h | h | h | h | h
  · exact hh (List.mem_of_mem_take h)
  · exact Or.inl h
  · exact hh (List.mem_of_mem_drop (List.mem_of_mem_take h))
  · exact Or.inl h
  · exact hh (List.mem_of_mem_drop (List.mem_of_mem_take h))
  · exact Or.inl h
  · exact hh (List.mem_of_mem_drop (List.mem_of_mem_take h))
  · exact Or.inl h
  · exact hh (List.mem_of_mem_drop h)

theorem hexReassemble (h : List Char) :
    h.take 8 ++ ((h.drop 8).take 4 ++ ((h.drop 12).take 4 ++
      ((h.drop 16).take 4 ++ h.drop 20))) = h := by
  rw [show h.drop 20 = List.drop 4 (h.drop 16) by rw [List.drop_drop]]
  rw [List.take_append_drop 4 (h.drop 16)]
  rw [show h.drop 16 = List.drop 4 (h.drop 12) by rw [List.drop_drop]]
  rw [List.take_append_drop 4 (h.drop 12)]
  rw [show h.drop 12 = List.drop 4 (h.drop 8) by rw [List.drop_drop]]
  rw [List.take_append_drop 4 (h.drop 8)]
  exact List.take_append_drop 8 h

theorem uuidStrList_filter_dash (u : Uuid) :
    (uuidStrList u).filter (fun c => c ≠ '-') = hexPad 32 u := by
  have hfilter : ∀ (l : List Char), (∀ c ∈ l, c ∈ hexPad 32 u) →
      l.filter (fun c => c ≠ '-') = l := by
    intro l hl
    refine List.filter_eq_self.mpr (fun a ha => ?_)
    obtain ⟨m, hm, rfl⟩ := hexPad_mem (hl a ha)
    simpa using hexDigitChar_ne_dash hm
  have hdash : ∀ (l : List Char),
      List.filter (fun c => c ≠ '-') ('-' :: l) =
        List.filter (fun c => c ≠ '-') l :=
    fun l => List.filter_cons_of_neg (by decide)
  unfold uuidStrList
  rw [List.filter_append, hdash, List.filter_append, hdash,
      List.filter_append, hdash, List.filter_append, hdash]
  rw [hfilter _ (fun c hc => List.mem_of_mem_take hc)]
  rw [hfilter _ (fun c hc => List.mem_of_mem_drop (List.mem_of_mem_take hc))]
  rw [hfilter _ (fun c hc => List.mem_of_mem_drop (List.mem_of_mem_take hc))]
  rw [hfilter _ (fun c hc => List.mem_of_mem_drop (List.mem_of_mem_take hc))]
  rw [hfilter _ (fun c hc => List.mem_of_mem_drop hc)]
  exact hexReassemble (hexPad 32 u)

theorem uuidPyParse_uuidStr {u : Uuid} (hu : u < 2 ^ 128) :
    uuidPyParse (uuidStr u) = some u := by
  have hbound : u < 16 ^ 32 := by
    have h2 : (2 : Nat) ^ 128 = 16 ^ 32 := by
      rw [show (16 : Nat) = 2 ^ 4 by norm_num, ← pow_mul]
    exact h2 ▸ hu
  have hstrip : stripBraces (uuidStr u).data = uuidStrList u :=
    stripBraces_eq_self (fun c hc => by
      rcases uuidStrList_mem hc with h | ⟨m, hm, rfl⟩
      · subst h; rfl
      · exact hexDigitChar_not_brace hm)
  show (if ((stripBraces (uuidStr u).data).filter (fun c => c ≠ '-')).length = 32
      then foldHex (some 0) ((stripBraces (uuidStr u).data).filter (fun c => c ≠ '-'))
      else none) = some u
  rw [hstrip, uuidStrList_filter_dash, hexPad_length, if_pos rfl]
  have hfold := foldHex_hexPad 32 u 0 [] hbound
  rw [List.append_nil] at hfold
  rw [hfold]
  show some (0 * 16 ^ 32 + u) = some u
  rw [Nat.zero_mul, Nat.zero_add]

theorem uuidStr_injOn {a b : Uuid} (ha : a < 2 ^ 128) (hb : b < 2 ^ 128)
    (h : uuidStr a = uuidStr b) : a = b := by
  have h1 := uuidPyParse_uuidStr ha
  have h2 := uuidPyParse_uuidStr hb
  rw [h] at h1
  rw [h1] at h2
  exact Option.some_injective _ h2

/-! ### `models.py`: roles, locations, parties -/

def MILLIS_PER_DAY : Int := 24 * 60 * 60 * 1000

inductive PartyRole where
  | LEADER
  | OFFICER
  | MEMBER
  | RECRUIT
deriving DecidableEq, Repr

/-- `PartyRole.value` (the `str`-enum payload). -/
def PartyRole.value : PartyRole → String
  | .LEADER => "leader"
  | .OFFICER => "officer"
  | .MEMBER => "member"
  | .RECRUIT => "recruit"

/-- The loop body of `PartyRole.parse` on an already-normalized string:
the first role whose value matches, else `MEMBER`. -/
def PartyRole.ofValue (s : String) : PartyRole :=
  if s = "leader" then .LEADER
  else if s = "officer" then .OFFICER
  else if s = "member" then .MEMBER
  else if s = "recruit" then .RECRUIT
  else .MEMBER

/-- `LocationData`.  Coordinates are Python floats; they are carried through
serialisation unchanged (`float(x) == x`), so we model them as rationals,
which the relevant operations treat identically. -/
structure LocationData where
  level : String
  dimension : String
  x : Rat
  y : Rat
  z : Rat
  pitch : Rat
  yaw : Rat
deriving DecidableEq, Repr

/-- The `Party` dataclass.  `UUID` sets/dicts become lists in iteration
order (see the header note). -/
structure Party where
  id : Uuid
  leader : Uuid
  members : List Uuid
  invites : List (Uuid × Int)
  join_requests : List (Uuid × Int)
  home : Option LocationData
  created_at : Int
  name : Option String
  is_public : Bool
  roles : List (Uuid × PartyRole)
  banned_players : List Uuid
  total_play_time_ms : Int
  total_kills : Int
  total_deaths : Int
  color : String
  icon : String
  allies : List Uuid
  last_daily_reward : List (Uuid × Int)
  consecutive_days : Int
  last_reward_date : Int
  achievements : List String
  last_seen : List (Uuid × Int)
deriving DecidableEq, Repr

namespace Party

/-- `Party.create(leader_id)`; the fresh `uuid4` and `now_ms()` readings are
passed explicitly. -/
def createP (pid leader_id : Uuid) (now : Int) : Party where
  id := pid
  leader := leader_id
  members := [leader_id]
  invites := []
  join_requests := []
  home := none
  created_at := now
  name := none
  is_public := true
  roles := [(leader_id, PartyRole.LEADER)]
  banned_players := []
  total_play_time_ms := 0
  total_kills := 0
  total_deaths := 0
  color := "§6"
  icon := "*"
  allies := []
  last_daily_reward := []
  consecutive_days := 0
  last_reward_date := 0
  achievements := []
  last_seen := []

def is_member (p : Party) (player_id : Uuid) : Bool := player_id ∈ p.members

def is_leader (p : Party) (player_id : Uuid) : Bool := p.leader = player_id

def get_role (p : Party) (player_id : Uuid) : PartyRole :=
  (dlookup p.roles player_id).getD PartyRole.MEMBER

def set_role (p : Party) (player_id : Uuid) (role : PartyRole) : Party :=
  if player_id = p.leader then
    { p with roles := dset p.roles player_id PartyRole.LEADER }
  else if player_id ∈ p.members then
    { p with roles := dset p.roles player_id role }
  else p

def transfer_leadership (p : Party) (new_leader_id : Uuid) : Party × Bool :=
  if new_leader_id ∉ p.members then (p, false)
  else
    let p1 :=
      if p.leader ≠ new_leader_id then
        { p with roles := dset p.roles p.leader PartyRole.OFFICER,
                 leader := new_leader_id }
      else p
    ({ p1 with roles := dset p1.roles p1.leader PartyRole.LEADER }, true)

def add_member (p : Party) (player_id : Uuid) : Party :=
  { p with members := listInsert p.members player_id,
           invites := dpop p.invites player_id,
           join_requests := dpop p.join_requests player_id,
           roles := dsetdefault p.roles player_id PartyRole.MEMBER }

def remove_member (p : Party) (player_id : Uuid) : Party :=
  { p with members := sremove p.members player_id,
           invites := dpop p.invites player_id,
           join_requests := dpop p.join_requests player_id,
           roles := dpop p.roles player_id,
           last_daily_reward := dpop p.last_daily_reward player_id,
           last_seen := dpop p.last_seen player_id }

def invite_player (p : Party) (player_id : Uuid) (now : Int) : Party :=
  { p with invites := dset p.invites player_id now }

def has_invite (p : Party) (player_id : Uuid) : Bool :=
  (dlookup p.invites player_id).isSome

def remove_invite (p : Party) (player_id : Uuid) : Party :=
  { p with invites := dpop p.invites player_id }

/-- `clean_expired_invites`: drops entries with `sent_at < now - expiration`
and returns the expired ids. -/
def clean_expired_invites (p : Party) (expiration_ms now : Int) :
    List Uuid × Party :=
  let cutoff := now - expiration_ms
  ((p.invites.filter (fun kv => kv.2 < cutoff)).map (fun kv => kv.1),
   { p with invites := p.invites.filter (fun kv => ¬ kv.2 < cutoff) })

def add_join_request (p : Party) (player_id : Uuid) (now : Int) : Party :=
  { p with join_requests := dset p.join_requests player_id now }

def has_join_request (p : Party) (player_id : Uuid) : Bool :=
  (dlookup p.join_requests player_id).isSome

def remove_join_request (p : Party) (player_id : Uuid) : Party :=
  { p with join_requests := dpop p.join_requests player_id }

def clean_expired_join_requests (p : Party) (expiration_ms now : Int) :
    List Uuid × Party :=
  let cutoff := now - expiration_ms
  ((p.join_requests.filter (fun kv => kv.2 < cutoff)).map (fun kv => kv.1),
   { p with join_requests := p.join_requests.filter (fun kv => ¬ kv.2 < cutoff) })

def ban_player (p : Party) (player_id : Uuid) : Party :=
  remove_member { p with banned_players := listInsert p.banned_players player_id }
    player_id

def unban_player (p : Party) (player_id : Uuid) : Party :=
  { p with banned_players := sremove p.banned_players player_id }

def can_claim_daily_reward (p : Party) (player_id : Uuid) (now : Int) : Bool :=
  match dlookup p.last_daily_reward player_id with
  | none => true
  | some last_claim => MILLIS_PER_DAY ≤ now - last_claim

def claim_daily_reward (p : Party) (player_id : Uuid) (now : Int) : Party :=
  let p1 := { p with last_daily_reward := dset p.last_daily_reward player_id now }
  let p2 :=
    if 0 < p1.last_reward_date then
      let days_since := (now - p1.last_reward_date).fdiv MILLIS_PER_DAY
      if days_since = 1 then { p1 with consecutive_days := p1.consecutive_days + 1 }
      else if 1 < days_since then { p1 with consecutive_days := 1 }
      else p1
    else { p1 with consecutive_days := 1 }
  { p2 with last_reward_date := now }

end Party

/-! ### `party_manager.py`: the registry

The manager's collaborators appear as explicit parameters: the clock
(`now`), configuration values (`max-members`, `max-pending-invites`,
`invite-expiration-ms`), the live-player lookup (`online : Uuid → Bool`
models `server.get_player(id) is not None`) and the storage outcome
(`saveOk`).  Methods taking a `Party` object always receive a party that
is registered in `parties` (they are obtained from the manager); they are
keyed here by party id, returning the state unchanged for an unknown id. -/

/-- Code-point lexicographic string comparison (Python's `str` ordering,
`x <= y`). -/
def strLeB : List Char → List Char → Bool
  | [], _ => true
  | _ :: _, [] => false
  | a :: as, b :: bs =>
      if a.toNat < b.toNat then true
      else if b.toNat < a.toNat then false
      else strLeB as bs

theorem strLeB_refl : ∀ xs : List Char, strLeB xs xs = true := by
  intro xs
  induction xs with
  | nil => rfl
  | cons a as ih => simp [strLeB, ih]

theorem strLeB_total : ∀ xs ys : List Char,
    strLeB xs ys = true ∨ strLeB ys xs = true := by
  intro xs
  induction xs with
  | nil => intro ys; left; rfl
  | cons a as ih =>
    intro ys
    cases ys with
    | nil => right; rfl
    | cons b bs =>
      by_cases h1 : a.toNat < b.toNat
      · left; simp [strLeB, h1]
      · by_cases h2 : b.toNat < a.toNat
        · right; simp [strLeB, h2]
        · rcases ih bs with h | h
          · left; simp [strLeB, h1, h2, h]
          · right; simp [strLeB, h1, h2, h]

theorem strLeB_trans : ∀ xs ys zs : List Char, strLeB xs ys = true →
    strLeB ys zs = true → strLeB xs zs = true := by
  intro xs
  induction xs with
  | nil => intro ys zs _ _; rfl
  | cons a as ih =>
    intro ys zs hxy hyz
    cases ys with
    | nil => exact absurd hxy (by simp [strLeB])
    | cons b bs =>
      cases zs with
      | nil => exact absurd hyz (by simp [strLeB])
      | cons c cs =>
        by_cases hba : b.toNat < a.toNat
        · have hab : ¬ a.toNat < b.toNat := by omega
          simp [strLeB, hab, hba] at hxy
        · by_cases hab : a.toNat < b.toNat
          · by_cases hcb : c.toNat < b.toNat
            · have hbc : ¬ b.toNat < c.toNat := by omega
              simp [strLeB, hbc, hcb] at hyz
            · have hac : a.toNat < c.toNat := by omega
              simp [strLeB, hac]
          · simp [strLeB, hab, hba] at hxy
            by_cases hcb : c.toNat < b.toNat
            · have hbc : ¬ b.toNat < c.toNat := by omega
              simp [strLeB, hbc, hcb] at hyz
            · by_cases hbc : b.toNat < c.toNat
              · have hac : a.toNat < c.toNat := by omega
                simp [strLeB, hac]
              · have hac1 : ¬ a.toNat < c.toNat := by omega
                have hac2 : ¬ c.toNat < a.toNat := by omega
                simp [strLeB, hbc, hcb] at hyz
                simp [strLeB, hac1, hac2]
                exact ih bs cs hxy hyz

/-- The key order of `sorted(xs, key=lambda v: str(v))`: lexicographic
comparison of the canonical UUID strings. -/
def uuidStrLe (a b : Uuid) : Prop :=
  strLeB (uuidStr a).data (uuidStr b).data = true

instance : DecidableRel uuidStrLe :=
  fun a b =>
    inferInstanceAs (Decidable (strLeB (uuidStr a).data (uuidStr b).data = true))

instance : IsTotal Uuid uuidStrLe := ⟨fun _ _ => strLeB_total _ _⟩

instance : IsTrans Uuid uuidStrLe := ⟨fun _ _ _ hab hbc => strLeB_trans _ _ _ hab hbc⟩

theorem uuidStrLe_refl (a : Uuid) : uuidStrLe a a := strLeB_refl _

/-- Python `sorted(xs, key=str)`: a stable sort by the canonical string
form (CPython uses Timsort; `insertionSort` is the same function on any
input since both are stable). -/
def sortByStr (xs : List Uuid) : List Uuid := List.insertionSort uuidStrLe xs

structure RegState where
  parties : List (Uuid × Party)
  player_to_party : List (Uuid × Uuid)
  player_invites : List (Uuid × Uuid)
  player_names : List (Uuid × String)
  last_marker_positions : List (Uuid × (Rat × Rat × Rat))
  dirty : Bool
deriving DecidableEq, Repr

namespace PartyManager

def emptyState : RegState where
  parties := []
  player_to_party := []
  player_invites := []
  player_names := []
  last_marker_positions := []
  dirty := false

def mark_dirty (S : RegState) : RegState := { S with dirty := true }

def record_player_name (S : RegState) (uid : Uuid) (pname : String) : RegState :=
  if dlookup S.player_names uid = some pname then S
  else { S with player_names := dset S.player_names uid pname, dirty := true }

def get_party (S : RegState) (party_id : Uuid) : Option Party :=
  dlookup S.parties party_id

/-- `get_player_party`, also yielding the dictionary key the party was
found under (the object is aliased into `parties`). -/
def get_player_party (S : RegState) (player_id : Uuid) : Option (Uuid × Party) :=
  match dlookup S.player_to_party player_id with
  | none => none
  | some party_id =>
    match dlookup S.parties party_id with
    | none => none
    | some party => some (party_id, party)

def is_in_party (S : RegState) (player_id : Uuid) : Bool :=
  match get_player_party S player_id with
  | some (_, party) => party.is_member player_id
  | none => false

def create_party (S : RegState) (uid : Uuid) (pname : String) (newPid : Uuid)
    (now : Int) : RegState × Option Party :=
  if is_in_party S uid then (S, none)
  else
    let party := Party.createP newPid uid now
    let S1 := { S with parties := dset S.parties party.id party,
                       player_to_party := dset S.player_to_party uid party.id }
    (mark_dirty (record_player_name S1 uid pname), some party)

def disband_party (S : RegState) (party_id : Uuid) : RegState × Bool :=
  match dlookup S.parties party_id with
  | none => (S, false)
  | some party =>
    let step := fun (acc : List (Uuid × Uuid) × List (Uuid × (Rat × Rat × Rat)))
        (m : Uuid) =>
      ((if dlookup acc.1 m = some party_id then dpop acc.1 m else acc.1),
       dpop acc.2 m)
    let idx := party.members.foldl step (S.player_to_party, S.last_marker_positions)
    ({ S with parties := dpop S.parties party_id,
              player_to_party := idx.1,
              last_marker_positions := idx.2,
              player_invites := S.player_invites.filter (fun kv => ¬ kv.2 = party_id),
              dirty := true }, true)

def invite_player (S : RegState) (pid target : Uuid) (now expiration_ms : Int)
    (max_pending : Nat) : RegState × Bool :=
  match dlookup S.parties pid with
  | none => (S, false)
  | some party =>
    let swept := party.clean_expired_invites expiration_ms now
    let party1 := swept.2
    let invites1 := swept.1.foldl
      (fun acc eid => if dlookup acc eid = some party.id then dpop acc eid else acc)
      S.player_invites
    let S1 := { S with parties := dset S.parties pid party1,
                       player_invites := invites1 }
    if party1.has_invite target then (S1, false)
    else if max_pending ≤ party1.invites.length then (S1, false)
    else
      ({ S1 with parties := dset S1.parties pid (party1.invite_player target now),
                 player_invites := dset S1.player_invites target party.id,
                 dirty := true }, true)

def accept_invite (S : RegState) (uid : Uuid) (pname : String) (pid : Uuid)
    (now expiration_ms : Int) (max_members : Nat) : RegState × Bool :=
  match dlookup S.parties pid with
  | none => (S, false)
  | some party =>
    if ¬ party.has_invite uid then (S, false)
    else
      let sent_at := (dlookup party.invites uid).getD 0
      if expiration_ms < now - sent_at then
        ({ S with parties := dset S.parties pid (party.remove_invite uid),
                  player_invites := dpop S.player_invites uid,
                  dirty := true }, false)
      else if max_members ≤ party.members.length then (S, false)
      else if uid ∈ party.banned_players then (S, false)
      else if is_in_party S uid then (S, false)
      else
        let S1 := { S with parties := dset S.parties pid (party.add_member uid),
                           player_to_party := dset S.player_to_party uid party.id,
                           player_invites := dpop S.player_invites uid }
        (mark_dirty (record_player_name S1 uid pname), true)

def pick_new_leader (party : Party) (online : Uuid → Bool) : Option Uuid :=
  match party.members.find? online with
  | some member_id => some member_id
  | none => (sortByStr party.members).head?

def leave_party (S : RegState) (uid : Uuid) (online : Uuid → Bool) :
    RegState × Option Party × Option Uuid :=
  match get_player_party S uid with
  | none => (S, none, none)
  | some (ppid, party) =>
    let was_leader := party.is_leader uid
    let party1 := party.remove_member uid
    let S1 := { S with parties := dset S.parties ppid party1,
                       player_to_party := dpop S.player_to_party uid,
                       last_marker_positions := dpop S.last_marker_positions uid,
                       dirty := true }
    if party1.members.isEmpty then
      ((disband_party S1 party1.id).1, some party1, none)
    else if was_leader then
      match pick_new_leader party1 online with
      | some new_leader =>
        let party2 := (party1.transfer_leadership new_leader).1
        ({ S1 with parties := dset S1.parties ppid party2, dirty := true },
         some party2, some new_leader)
      | none => (S1, some party1, none)
    else (S1, some party1, none)

def kick_player (S : RegState) (pid target : Uuid) : RegState × Bool :=
  match dlookup S.parties pid with
  | none => (S, false)
  | some party =>
    if target ∉ party.members then (S, false)
    else
      let party1 := party.remove_member target
      let S1 := { S with parties := dset S.parties pid party1,
                         player_to_party := dpop S.player_to_party target,
                         last_marker_positions := dpop S.last_marker_positions target,
                         dirty := true }
      (if party1.members.isEmpty then (disband_party S1 party1.id).1 else S1, true)

def add_player_to_party (S : RegState) (uid : Uuid) (pname : String) (pid : Uuid)
    (max_members : Nat) : RegState × Bool :=
  match dlookup S.parties pid with
  | none => (S, false)
  | some party =>
    if is_in_party S uid then (S, false)
    else if max_members ≤ party.members.length then (S, false)
    else
      let S1 := { S with parties := dset S.parties pid (party.add_member uid),
                         player_to_party := dset S.player_to_party uid party.id,
                         player_invites := dpop S.player_invites uid }
      (mark_dirty (record_player_name S1 uid pname), true)

def request_to_join (S : RegState) (requester_id pid : Uuid) (now : Int) :
    RegState × Bool :=
  match dlookup S.parties pid with
  | none => (S, false)
  | some party =>
    if requester_id ∈ party.banned_players then (S, false)
    else if party.has_join_request requester_id then (S, false)
    else
      ({ S with parties := dset S.parties pid (party.add_join_request requester_id now),
                dirty := true }, true)

def accept_join_request (S : RegState) (pid : Uuid) (requester_id : Uuid)
    (pname : String) (max_members : Nat) : RegState × Bool :=
  match dlookup S.parties pid with
  | none => (S, false)
  | some party =>
    if ¬ party.has_join_request requester_id then (S, false)
    else
      let party1 := party.remove_join_request requester_id
      let S1 := { S with parties := dset S.parties pid party1, dirty := true }
      add_player_to_party S1 requester_id pname pid max_members

def deny_join_request (S : RegState) (pid requester_id : Uuid) : RegState × Bool :=
  match dlookup S.parties pid with
  | none => (S, false)
  | some party =>
    if ¬ party.has_join_request requester_id then (S, false)
    else
      let party1 := party.remove_join_request requester_id
      ({ S with parties := dset S.parties pid party1, dirty := true }, true)

/-- The `/party ban` handler in `__init__.py` (the only caller of
`Party.ban_player`): guards — target found among the members, not the
leader, not already banned — then `party.ban_player(target)`,
`player_to_party.pop(target)`, `mark_dirty()`. -/
def party_ban_command (S : RegState) (pid target : Uuid) : RegState × Bool :=
  match dlookup S.parties pid with
  | none => (S, false)
  | some party =>
    if target ∉ party.members then (S, false)
    else if party.is_leader target then (S, false)
    else if target ∈ party.banned_players then (S, false)
    else
      ({ S with parties := dset S.parties pid (party.ban_player target),
                player_to_party := dpop S.player_to_party target,
                dirty := true }, true)

/-- `save_all(force)`: `saveOk` models whether `storage.save` raises.
Returns the new state and whether storage I/O was attempted. -/
def save_all (S : RegState) (force saveOk : Bool) : RegState × Bool :=
  if ¬ force ∧ ¬ S.dirty then (S, false)
  else if saveOk then ({ S with dirty := false }, true)
  else (S, true)

end PartyManager

/-! ### Further association-list lemmas -/

theorem dlookup_append_of_some {K V : Type} [DecidableEq K]
    {m : List (K × V)} {k : K} {v : V} (l : List (K × V))
    (h : dlookup m k = some v) : dlookup (m ++ l) k = some v := by
  induction m with
  | nil => simp at h
  | cons kv rest ih =>
    obtain ⟨k0, v0⟩ := kv
    by_cases h0 : k0 = k
    · rw [dlookup_cons, if_pos h0] at h
      rw [List.cons_append, dlookup_cons, if_pos h0]
      exact h
    · rw [dlookup_cons, if_neg h0] at h
      rw [List.cons_append, dlookup_cons, if_neg h0]
      exact ih h

theorem dlookup_dsetdefault_preserve {K V : Type} [DecidableEq K]
    {m : List (K × V)} {k k2 : K} {v : V} (v2 : V)
    (h : dlookup m k = some v) : dlookup (dsetdefault m k2 v2) k = some v := by
  unfold dsetdefault
  cases hm : dlookup m k2 with
  | some w => exact h
  | none => exact dlookup_append_of_some _ h

theorem dlookup_eq_none_iff {K V : Type} [DecidableEq K]
    (m : List (K × V)) (k : K) :
    dlookup m k = none ↔ ∀ kv ∈ m, kv.1 ≠ k := by
  induction m with
  | nil => simp
  | cons kv rest ih =>
    obtain ⟨k0, v0⟩ := kv
    by_cases h0 : k0 = k <;> simp [dlookup, h0, ih]

theorem dlookup_filter_none {K V : Type} [DecidableEq K]
    (p : K × V → Bool) {m : List (K × V)} {k : K}
    (h : dlookup m k = none) : dlookup (m.filter p) k = none := by
  rw [dlookup_eq_none_iff] at h ⊢
  exact fun kv hkv => h kv (List.mem_of_mem_filter hkv)

theorem mem_dset {K V : Type} [DecidableEq K]
    {m : List (K × V)} {k : K} {v : V} {kv : K × V}
    (h : kv ∈ dset m k v) : kv ∈ m ∨ kv = (k, v) := by
  induction m with
  | nil => simpa [dset] using h
  | cons kv0 rest ih =>
    obtain ⟨k0, v0⟩ := kv0
    by_cases h0 : k0 = k
    · rcases List.mem_cons.mp (by simpa [dset, h0] using h) with h1 | h1
      · exact Or.inr h1
      · exact Or.inl (List.mem_cons_of_mem _ h1)
    · rcases List.mem_cons.mp (by simpa [dset, h0] using h) with h1 | h1
      · exact Or.inl (by simp [h1])
      · rcases ih h1 with h2 | h2
        · exact Or.inl (List.mem_cons_of_mem _ h2)
        · exact Or.inr h2

theorem dlookup_dset_cases {K V : Type} [DecidableEq K]
    {m : List (K × V)} {k k' : K} {v w : V}
    (h : dlookup (dset m k v) k' = some w) :
    (k' = k ∧ w = v) ∨ (k' ≠ k ∧ dlookup m k' = some w) := by
  by_cases hk : k = k'
  · subst hk
    rw [dlookup_dset_self] at h
    cases h
    exact Or.inl ⟨rfl, rfl⟩
  · rw [dlookup_dset_ne m k k' v hk] at h
    exact Or.inr ⟨fun e => hk e.symm, h⟩

theorem listInsert_ne_nil {α : Type} [DecidableEq α] (xs : List α) (x : α) :
    listInsert xs x ≠ [] := by
  unfold listInsert
  by_cases h : x ∈ xs
  · rw [if_pos h]
    exact List.ne_nil_of_mem h
  · rw [if_neg h]
    exact List.append_ne_nil_of_right_ne_nil _ (by simp)

/-! ### Per-party invariants

`SpecInvariants` is exactly §3 invariants 1–4 of the specification.
`InvP` is the provable variant: invariant 2's "no role entries outside
`members`" half is dropped (leadership transfer resurrects an `OFFICER`
entry for the departed leader), and an auxiliary fact is carried (no
banned player holds a live join request) which the operations maintain
and which `accept_join_request` relies on. -/

/-- Spec §3, invariants 1–4, verbatim. -/
def SpecInvariants (p : Party) : Prop :=
  p.leader ∈ p.members ∧
  dlookup p.roles p.leader = some PartyRole.LEADER ∧
  (∀ kv ∈ p.roles, kv.1 ∈ p.members) ∧
  (∀ m ∈ p.members,
    dlookup p.invites m = none ∧ dlookup p.join_requests m = none ∧
      m ∉ p.banned_players) ∧
  p.members ≠ []

instance (p : Party) : Decidable (SpecInvariants p) := by
  unfold SpecInvariants
  infer_instance

structure InvP (p : Party) : Prop where
  leader_mem : p.leader ∈ p.members
  leader_role : dlookup p.roles p.leader = some PartyRole.LEADER
  mem_no_invite : ∀ m ∈ p.members, dlookup p.invites m = none
  mem_no_join : ∀ m ∈ p.members, dlookup p.join_requests m = none
  mem_not_banned : ∀ m ∈ p.members, m ∉ p.banned_players
  join_not_banned : ∀ kv ∈ p.join_requests, kv.1 ∉ p.banned_players
  nonempty : p.members ≠ []

namespace Party

theorem InvP_createP (pid uid : Uuid) (now : Int) :
    InvP (Party.createP pid uid now) := by
  constructor <;> simp [Party.createP, dlookup]

theorem InvP_add_member {p : Party} {uid : Uuid} (h : InvP p)
    (hb : uid ∉ p.banned_players) : InvP (p.add_member uid) := by
  have hmem : ∀ m, m ∈ (p.add_member uid).members → m ∈ p.members ∨ m = uid :=
    fun m hm => (mem_listInsert p.members uid m).mp hm
  constructor
  · exact mem_listInsert_of_mem h.leader_mem
  · show dlookup (dsetdefault p.roles uid PartyRole.MEMBER) p.leader = _
    exact dlookup_dsetdefault_preserve _ h.leader_role
  · intro m hm
    show dlookup (dpop p.invites uid) m = none
    rcases hmem m hm with h1 | h1
    · by_cases h2 : uid = m
      · subst h2; exact dlookup_dpop_self _ _
      · rw [dlookup_dpop_ne _ _ _ h2]
        exact h.mem_no_invite m h1
    · subst h1; exact dlookup_dpop_self _ _
  · intro m hm
    show dlookup (dpop p.join_requests uid) m = none
    rcases hmem m hm with h1 | h1
    · by_cases h2 : uid = m
      · subst h2; exact dlookup_dpop_self _ _
      · rw [dlookup_dpop_ne _ _ _ h2]
        exact h.mem_no_join m h1
    · subst h1; exact dlookup_dpop_self _ _
  · intro m hm
    rcases hmem m hm with h1 | h1
    · exact h.mem_not_banned m h1
    · subst h1; exact hb
  · intro kv hkv
    show kv.1 ∉ p.banned_players
    exact h.join_not_banned kv ((mem_dpop _ _ _ _).mp hkv).1
  · exact listInsert_ne_nil _ _

theorem InvP_remove_member {p : Party} {uid : Uuid} (h : InvP p)
    (hl : uid ≠ p.leader) : InvP (p.remove_member uid) := by
  have hmem : ∀ m, m ∈ (p.remove_member uid).members →
      m ∈ p.members ∧ m ≠ uid :=
    fun m hm => (mem_sremove p.members uid m).mp hm
  constructor
  · exact (mem_sremove _ _ _).mpr ⟨h.leader_mem, fun e => hl e.symm⟩
  · show dlookup (dpop p.roles uid) p.leader = _
    rw [dlookup_dpop_ne _ _ _ hl]
    exact h.leader_role
  · intro m hm
    obtain ⟨h1, h2⟩ := hmem m hm
    show dlookup (dpop p.invites uid) m = none
    rw [dlookup_dpop_ne _ _ _ (fun e => h2 e.symm)]
    exact h.mem_no_invite m h1
  · intro m hm
    obtain ⟨h1, h2⟩ := hmem m hm
    show dlookup (dpop p.join_requests uid) m = none
    rw [dlookup_dpop_ne _ _ _ (fun e => h2 e.symm)]
    exact h.mem_no_join m h1
  · intro m hm
    exact h.mem_not_banned m (hmem m hm).1
  · intro kv hkv
    exact h.join_not_banned kv ((mem_dpop _ _ _ _).mp hkv).1
  · exact List.ne_nil_of_mem
      ((mem_sremove _ _ _).mpr ⟨h.leader_mem, fun e => hl e.symm⟩)

theorem InvP_remove_invite {p : Party} (uid : Uuid) (h : InvP p) :
    InvP (p.remove_invite uid) := by
  constructor
  · exact h.leader_mem
  · exact h.leader_role
  · intro m hm
    show dlookup (dpop p.invites uid) m = none
    by_cases h2 : uid = m
    · subst h2; exact dlookup_dpop_self _ _
    · rw [dlookup_dpop_ne _ _ _ h2]; exact h.mem_no_invite m hm
  · exact h.mem_no_join
  · exact h.mem_not_banned
  · exact h.join_not_banned
  · exact h.nonempty

theorem InvP_sweep_invites {p : Party} (ttl now : Int) (h : InvP p) :
    InvP (p.clean_expired_invites ttl now).2 := by
  constructor
  · exact h.leader_mem
  · exact h.leader_role
  · intro m hm
    exact dlookup_filter_none _ (h.mem_no_invite m hm)
  · exact h.mem_no_join
  · exact h.mem_not_banned
  · exact h.join_not_banned
  · exact h.nonempty

theorem InvP_sweep_joins {p : Party} (ttl now : Int) (h : InvP p) :
    InvP (p.clean_expired_join_requests ttl now).2 := by
  constructor
  · exact h.leader_mem
  · exact h.leader_role
  · exact h.mem_no_invite
  · intro m hm
    exact dlookup_filter_none _ (h.mem_no_join m hm)
  · exact h.mem_not_banned
  · intro kv hkv
    exact h.join_not_banned kv (List.mem_of_mem_filter hkv)
  · exact h.nonempty

theorem InvP_invite_player {p : Party} {uid : Uuid} (now : Int) (h : InvP p)
    (hm : uid ∉ p.members) : InvP (p.invite_player uid now) := by
  constructor
  · exact h.leader_mem
  · exact h.leader_role
  · intro m hmem
    show dlookup (dset p.invites uid now) m = none
    rw [dlookup_dset_ne _ _ _ _ (fun e => hm (by rw [e]; exact hmem))]
    exact h.mem_no_invite m hmem
  · exact h.mem_no_join
  · exact h.mem_not_banned
  · exact h.join_not_banned
  · exact h.nonempty

theorem InvP_add_join_request {p : Party} {uid : Uuid} (now : Int) (h : InvP p)
    (hm : uid ∉ p.members) (hb : uid ∉ p.banned_players) :
    InvP (p.add_join_request uid now) := by
  constructor
  · exact h.leader_mem
  · exact h.leader_role
  · exact h.mem_no_invite
  · intro m hmem
    show dlookup (dset p.join_requests uid now) m = none
    rw [dlookup_dset_ne _ _ _ _ (fun e => hm (by rw [e]; exact hmem))]
    exact h.mem_no_join m hmem
  · exact h.mem_not_banned
  · intro kv hkv
    rcases mem_dset hkv with h1 | h1
    · exact h.join_not_banned kv h1
    · rw [h1]; exact hb
  · exact h.nonempty

theorem InvP_remove_join_request {p : Party} (uid : Uuid) (h : InvP p) :
    InvP (p.remove_join_request uid) := by
  constructor
  · exact h.leader_mem
  · exact h.leader_role
  · exact h.mem_no_invite
  · intro m hm
    show dlookup (dpop p.join_requests uid) m = none
    by_cases h2 : uid = m
    · subst h2; exact dlookup_dpop_self _ _
    · rw [dlookup_dpop_ne _ _ _ h2]; exact h.mem_no_join m hm
  · exact h.mem_not_banned
  · intro kv hkv
    exact h.join_not_banned kv ((mem_dpop _ _ _ _).mp hkv).1
  · exact h.nonempty

theorem InvP_ban_player {p : Party} {uid : Uuid} (h : InvP p)
    (hl : uid ≠ p.leader) : InvP (p.ban_player uid) := by
  have hmem : ∀ m, m ∈ (p.ban_player uid).members → m ∈ p.members ∧ m ≠ uid :=
    fun m hm => (mem_sremove p.members uid m).mp hm
  constructor
  · exact (mem_sremove _ _ _).mpr ⟨h.leader_mem, fun e => hl e.symm⟩
  · show dlookup (dpop p.roles uid) p.leader = _
    rw [dlookup_dpop_ne _ _ _ hl]
    exact h.leader_role
  · intro m hm
    obtain ⟨h1, h2⟩ := hmem m hm
    show dlookup (dpop p.invites uid) m = none
    rw [dlookup_dpop_ne _ _ _ (fun e => h2 e.symm)]
    exact h.mem_no_invite m h1
  · intro m hm
    obtain ⟨h1, h2⟩ := hmem m hm
    show dlookup (dpop p.join_requests uid) m = none
    rw [dlookup_dpop_ne _ _ _ (fun e => h2 e.symm)]
    exact h.mem_no_join m h1
  · intro m hm
    obtain ⟨h1, h2⟩ := hmem m hm
    intro hcontra
    rcases (mem_listInsert _ _ _).mp hcontra with h3 | h3
    · exact h.mem_not_banned m h1 h3
    · exact h2 h3
  · intro kv hkv
    obtain ⟨h1, h2⟩ := (mem_dpop _ _ _ _).mp hkv
    intro hcontra
    rcases (mem_listInsert _ _ _).mp hcontra with h3 | h3
    · exact h.join_not_banned kv h1 h3
    · exact h2 h3
  · exact List.ne_nil_of_mem
      ((mem_sremove _ _ _).mpr ⟨h.leader_mem, fun e => hl e.symm⟩)

/-- Leadership transfer to a member of the (leader-removed) party restores
the invariants: this is the `leave_party` leader-departure path. -/
theorem InvP_transfer {q : Party} {nl : Uuid}
    (hmem : nl ∈ q.members)
    (hinv2 : ∀ m ∈ q.members, dlookup q.invites m = none)
    (hinv3 : ∀ m ∈ q.members, dlookup q.join_requests m = none)
    (hinv4 : ∀ m ∈ q.members, m ∉ q.banned_players)
    (hjoin : ∀ kv ∈ q.join_requests, kv.1 ∉ q.banned_players) :
    InvP (q.transfer_leadership nl).1 := by
  unfold Party.transfer_leadership
  rw [if_neg (not_not_intro hmem)]
  by_cases hld : q.leader ≠ nl
  · rw [if_pos hld]
    constructor
    · exact hmem
    · exact dlookup_dset_self _ _ _
    · exact hinv2
    · exact hinv3
    · exact hinv4
    · exact hjoin
    · exact List.ne_nil_of_mem hmem
  · rw [if_neg hld]
    push_neg at hld
    constructor
    · show q.leader ∈ q.members
      rw [hld]; exact hmem
    · exact dlookup_dset_self _ _ _
    · exact hinv2
    · exact hinv3
    · exact hinv4
    · exact hjoin
    · exact List.ne_nil_of_mem hmem

end Party

/-! ### Registry-level invariant and its preservation -/

/-- Well-formedness of the `parties` dictionary: every entry is keyed by
its party's `id` (Python maintains `parties[party.id] = party`) and
satisfies the per-party invariants. -/
def PartiesOK (ps : List (Uuid × Party)) : Prop :=
  ∀ pid p, dlookup ps pid = some p → p.id = pid ∧ InvP p

abbrev RegInv (S : RegState) : Prop := PartiesOK S.parties

theorem PartiesOK_dset {ps : List (Uuid × Party)} {pid : Uuid} {p' : Party}
    (h : PartiesOK ps) (hinv : InvP p') (hid : p'.id = pid) :
    PartiesOK (dset ps pid p') := by
  intro k q hq
  rcases dlookup_dset_cases hq with ⟨he, hv⟩ | ⟨_, hq'⟩
  · subst he; subst hv; exact ⟨hid, hinv⟩
  · exact h k q hq'

theorem PartiesOK_dpop {ps : List (Uuid × Party)} {pid : Uuid}
    (h : PartiesOK ps) : PartiesOK (dpop ps pid) := by
  intro k q hq
  exact h k q (dlookup_dpop_of_lookup _ _ _ _ hq)

namespace PartyManager

@[simp] theorem mark_dirty_parties (S : RegState) :
    (mark_dirty S).parties = S.parties := rfl

@[simp] theorem record_player_name_parties (S : RegState) (uid : Uuid)
    (pname : String) : (record_player_name S uid pname).parties = S.parties := by
  unfold record_player_name
  split <;> rfl

theorem get_player_party_spec {S : RegState} {uid ppid : Uuid} {party : Party}
    (h : get_player_party S uid = some (ppid, party)) :
    dlookup S.player_to_party uid = some ppid ∧
      dlookup S.parties ppid = some party := by
  unfold get_player_party at h
  split at h
  · cases h
  · rename_i pid2 h1
    split at h
    · cases h
    · rename_i p2 h2
      cases h
      exact ⟨h1, h2⟩

theorem transfer_leadership_id (q : Party) (nl : Uuid) :
    (q.transfer_leadership nl).1.id = q.id := by
  unfold Party.transfer_leadership
  split
  · rfl
  · split <;> rfl

theorem pick_new_leader_mem {party : Party} (online : Uuid → Bool)
    (hne : party.members ≠ []) :
    ∃ m, pick_new_leader party online = some m ∧ m ∈ party.members := by
  unfold pick_new_leader
  cases hf : party.members.find? online with
  | some m => exact ⟨m, rfl, List.mem_of_find?_eq_some hf⟩
  | none =>
    cases hms : sortByStr party.members with
    | nil =>
      exfalso
      obtain ⟨a, ha⟩ := List.exists_mem_of_ne_nil _ hne
      have hmem : a ∈ sortByStr party.members :=
        (List.mem_insertionSort uuidStrLe).mpr ha
      rw [hms] at hmem
      simp at hmem
    | cons m t =>
      refine ⟨m, by simp [hms], ?_⟩
      have hmem : m ∈ sortByStr party.members := by
        rw [hms]; exact List.mem_cons_self _ _
      exact (List.mem_insertionSort uuidStrLe).mp hmem

theorem inv_create_party (S : RegState) (uid : Uuid) (pname : String)
    (newPid : Uuid) (now : Int) (h : RegInv S) :
    RegInv (create_party S uid pname newPid now).1 := by
  unfold create_party
  split
  · exact h
  · show PartiesOK (mark_dirty (record_player_name _ uid pname)).parties
    rw [mark_dirty_parties, record_player_name_parties]
    exact PartiesOK_dset h (Party.InvP_createP newPid uid now) rfl

theorem inv_disband_party (S : RegState) (pid : Uuid) (h : RegInv S) :
    RegInv (disband_party S pid).1 := by
  unfold disband_party
  cases hp : dlookup S.parties pid with
  | none => exact h
  | some party => exact PartiesOK_dpop h

theorem inv_invite_player (S : RegState) (pid target : Uuid) (now ttl : Int)
    (maxPending : Nat) (h : RegInv S)
    (hguard : ∀ p, dlookup S.parties pid = some p → target ∉ p.members) :
    RegInv (invite_player S pid target now ttl maxPending).1 := by
  unfold invite_player
  split
  · exact h
  · rename_i party hp
    obtain ⟨hid, hinv⟩ := h pid party hp
    have hswept : InvP (party.clean_expired_invites ttl now).2 :=
      Party.InvP_sweep_invites ttl now hinv
    dsimp only
    split
    · exact PartiesOK_dset h hswept hid
    · split
      · exact PartiesOK_dset h hswept hid
      · refine PartiesOK_dset (PartiesOK_dset h hswept hid) ?_ hid
        exact Party.InvP_invite_player now hswept (hguard party hp)

theorem inv_accept_invite (S : RegState) (uid : Uuid) (pname : String)
    (pid : Uuid) (now ttl : Int) (maxMembers : Nat) (h : RegInv S) :
    RegInv (accept_invite S uid pname pid now ttl maxMembers).1 := by
  unfold accept_invite
  split
  · exact h
  · rename_i party hp
    obtain ⟨hid, hinv⟩ := h pid party hp
    dsimp only
    split
    · exact h
    · split
      · exact PartiesOK_dset h (Party.InvP_remove_invite uid hinv) hid
      · split
        · exact h
        · split
          · exact h
          · split
            · exact h
            · rename_i hnb _
              show PartiesOK (mark_dirty (record_player_name _ uid pname)).parties
              rw [mark_dirty_parties, record_player_name_parties]
              exact PartiesOK_dset h (Party.InvP_add_member hinv hnb) hid

/-- Disbanding preserves the registry invariant even when the entry being
removed is itself broken (the `leave_party` empty-membership path passes
through such a state). -/
theorem inv_disband_except {S : RegState} {pid : Uuid}
    (h : ∀ k q, dlookup S.parties k = some q → k = pid ∨ (q.id = k ∧ InvP q)) :
    RegInv (disband_party S pid).1 := by
  unfold disband_party
  cases hp : dlookup S.parties pid with
  | none =>
    intro k q hq
    rcases h k q hq with he | hok
    · subst he; rw [hp] at hq; cases hq
    · exact hok
  | some party =>
    intro k q hq
    by_cases hk : pid = k
    · subst hk; rw [dlookup_dpop_self] at hq; cases hq
    · rw [dlookup_dpop_ne _ _ _ hk] at hq
      rcases h k q hq with he | hok
      · exact absurd he.symm hk
      · exact hok

theorem inv_leave_party (S : RegState) (uid : Uuid) (online : Uuid → Bool)
    (h : RegInv S) : RegInv (leave_party S uid online).1 := by
  unfold leave_party
  split
  · exact h
  · rename_i ppid party hg
    obtain ⟨hp2p, hp⟩ := get_player_party_spec hg
    obtain ⟨hid, hinv⟩ := h ppid party hp
    have hmem1 : ∀ m, m ∈ (party.remove_member uid).members →
        m ∈ party.members ∧ m ≠ uid :=
      fun m hm => (mem_sremove party.members uid m).mp hm
    have hinv2 : ∀ m ∈ (party.remove_member uid).members,
        dlookup (party.remove_member uid).invites m = none := by
      intro m hm
      obtain ⟨h1, h2⟩ := hmem1 m hm
      show dlookup (dpop party.invites uid) m = none
      rw [dlookup_dpop_ne _ _ _ (fun e => h2 e.symm)]
      exact hinv.mem_no_invite m h1
    have hinv3 : ∀ m ∈ (party.remove_member uid).members,
        dlookup (party.remove_member uid).join_requests m = none := by
      intro m hm
      obtain ⟨h1, h2⟩ := hmem1 m hm
      show dlookup (dpop party.join_requests uid) m = none
      rw [dlookup_dpop_ne _ _ _ (fun e => h2 e.symm)]
      exact hinv.mem_no_join m h1
    have hinv4 : ∀ m ∈ (party.remove_member uid).members,
        m ∉ (party.remove_member uid).banned_players :=
      fun m hm => hinv.mem_not_banned m (hmem1 m hm).1
    have hjoin : ∀ kv ∈ (party.remove_member uid).join_requests,
        kv.1 ∉ (party.remove_member uid).banned_players :=
      fun kv hkv => hinv.join_not_banned kv ((mem_dpop _ _ _ _).mp hkv).1
    dsimp only
    split
    · -- membership became empty: the party is disbanded
      apply inv_disband_except
      intro k2 q hq
      rcases dlookup_dset_cases hq with ⟨he, hv⟩ | ⟨hne, hq'⟩
      · left
        rw [he, show (party.remove_member uid).id = party.id from rfl, hid]
      · exact Or.inr (h k2 q hq')
    · rename_i hnotemp
      split
      · -- departing leader: election then transfer
        cases hpick : pick_new_leader (party.remove_member uid) online with
        | some nl =>
          intro k2 q hq
          rcases dlookup_dset_cases hq with ⟨he, hv⟩ | ⟨hne, hq'⟩
          · subst he; subst hv
            constructor
            · rw [transfer_leadership_id]
              exact hid
            · refine Party.InvP_transfer ?_ hinv2 hinv3 hinv4 hjoin
              have hnotempty : (party.remove_member uid).members ≠ [] := by
                intro hnil
                exact hnotemp (List.isEmpty_iff.mpr hnil)
              obtain ⟨m, hm1, hm2⟩ := pick_new_leader_mem online hnotempty
              rw [hpick] at hm1
              cases hm1
              exact hm2
          · rcases dlookup_dset_cases hq' with ⟨he, hv⟩ | ⟨hne2, hq''⟩
            · exact absurd he hne
            · exact h k2 q hq''
        | none =>
          -- `pick_new_leader` cannot return `none` for a non-empty party
          exfalso
          have hnotempty : (party.remove_member uid).members ≠ [] := by
            intro hnil
            exact hnotemp (List.isEmpty_iff.mpr hnil)
          obtain ⟨m, hm1, _⟩ := pick_new_leader_mem online hnotempty
          rw [hpick] at hm1
          cases hm1
      · -- ordinary member departure
        rename_i hnotleader
        refine PartiesOK_dset h (Party.InvP_remove_member hinv ?_) hid
        intro he
        exact hnotleader (by simp [Party.is_leader, he])

theorem inv_kick_player (S : RegState) (pid target : Uuid) (h : RegInv S)
    (hguard : ∀ p, dlookup S.parties pid = some p → target ≠ p.leader) :
    RegInv (kick_player S pid target).1 := by
  unfold kick_player
  split
  · exact h
  · rename_i party hp
    obtain ⟨hid, hinv⟩ := h pid party hp
    split
    · exact h
    · have hrm : InvP (party.remove_member target) :=
        Party.InvP_remove_member hinv (hguard party hp)
      dsimp only
      split
      · exact inv_disband_party _ _ (PartiesOK_dset h hrm hid)
      · exact PartiesOK_dset h hrm hid

theorem inv_add_player_to_party (S : RegState) (uid : Uuid) (pname : String)
    (pid : Uuid) (maxM : Nat) (h : RegInv S)
    (hguard : ∀ p, dlookup S.parties pid = some p → uid ∉ p.banned_players) :
    RegInv (add_player_to_party S uid pname pid maxM).1 := by
  unfold add_player_to_party
  split
  · exact h
  · rename_i party hp
    obtain ⟨hid, hinv⟩ := h pid party hp
    dsimp only
    split
    · exact h
    · split
      · exact h
      · show PartiesOK (mark_dirty (record_player_name _ uid pname)).parties
        rw [mark_dirty_parties, record_player_name_parties]
        exact PartiesOK_dset h (Party.InvP_add_member hinv (hguard party hp)) hid

theorem inv_request_to_join (S : RegState) (uid pid : Uuid) (now : Int)
    (h : RegInv S)
    (hguard : ∀ p, dlookup S.parties pid = some p → uid ∉ p.members) :
    RegInv (request_to_join S uid pid now).1 := by
  unfold request_to_join
  split
  · exact h
  · rename_i party hp
    obtain ⟨hid, hinv⟩ := h pid party hp
    split
    · exact h
    · split
      · exact h
      · rename_i hnb _
        exact PartiesOK_dset h
          (Party.InvP_add_join_request now hinv (hguard party hp) hnb) hid

theorem inv_deny_join_request (S : RegState) (pid uid : Uuid) (h : RegInv S) :
    RegInv (deny_join_request S pid uid).1 := by
  unfold deny_join_request
  split
  · exact h
  · rename_i party hp
    obtain ⟨hid, hinv⟩ := h pid party hp
    dsimp only
    split
    · exact h
    · exact PartiesOK_dset h (Party.InvP_remove_join_request uid hinv) hid

theorem inv_accept_join_request (S : RegState) (pid uid : Uuid) (pname : String)
    (maxM : Nat) (h : RegInv S) :
    RegInv (accept_join_request S pid uid pname maxM).1 := by
  unfold accept_join_request
  split
  · exact h
  · rename_i party hp
    obtain ⟨hid, hinv⟩ := h pid party hp
    dsimp only
    split
    · exact h
    · rename_i hreq
      have hjr : party.has_join_request uid = true := by
        by_contra hc
        exact hreq (by simpa using hc)
      have hnb : uid ∉ party.banned_players := by
        unfold Party.has_join_request at hjr
        obtain ⟨v, hv⟩ := Option.isSome_iff_exists.mp hjr
        exact hinv.join_not_banned (uid, v) (dlookup_mem hv)
      apply inv_add_player_to_party
      · exact PartiesOK_dset h (Party.InvP_remove_join_request uid hinv) hid
      · intro p hp'
        rcases dlookup_dset_cases hp' with ⟨_, hv⟩ | ⟨hne, _⟩
        · subst hv
          exact hnb
        · exact absurd rfl hne

theorem inv_party_ban_command (S : RegState) (pid target : Uuid)
    (h : RegInv S) : RegInv (party_ban_command S pid target).1 := by
  unfold party_ban_command
  split
  · exact h
  · rename_i party hp
    obtain ⟨hid, hinv⟩ := h pid party hp
    split
    · exact h
    · split
      · exact h
      · split
        · exact h
        · rename_i hmem hlead _
          refine PartiesOK_dset h (Party.InvP_ban_player hinv ?_) hid
          intro e
          exact hlead (by simp [Party.is_leader, e])

end PartyManager

/-- The registry operations named by the specification, with the
preconditions the command layer (`__init__.py`) establishes before calling
them: invite and join-request targets are not already members of the
target party, kicks never target the leader, and direct adds never target
a player banned from that party (the ban guards are inside
`party_ban_command` itself, mirroring `_party_ban`). -/
inductive GStep : RegState → RegState → Prop
  | create (S : RegState) (uid : Uuid) (pname : String) (newPid : Uuid)
      (now : Int) : GStep S (PartyManager.create_party S uid pname newPid now).1
  | disband (S : RegState) (pid : Uuid) :
      GStep S (PartyManager.disband_party S pid).1
  | invite (S : RegState) (pid target : Uuid) (now ttl : Int) (maxPending : Nat)
      (hguard : ∀ p, dlookup S.parties pid = some p → target ∉ p.members) :
      GStep S (PartyManager.invite_player S pid target now ttl maxPending).1
  | accept (S : RegState) (uid : Uuid) (pname : String) (pid : Uuid)
      (now ttl : Int) (maxM : Nat) :
      GStep S (PartyManager.accept_invite S uid pname pid now ttl maxM).1
  | leave (S : RegState) (uid : Uuid) (online : Uuid → Bool) :
      GStep S (PartyManager.leave_party S uid online).1
  | kick (S : RegState) (pid target : Uuid)
      (hguard : ∀ p, dlookup S.parties pid = some p → target ≠ p.leader) :
      GStep S (PartyManager.kick_player S pid target).1
  | reqJoin (S : RegState) (uid pid : Uuid) (now : Int)
      (hguard : ∀ p, dlookup S.parties pid = some p → uid ∉ p.members) :
      GStep S (PartyManager.request_to_join S uid pid now).1
  | acceptReq (S : RegState) (pid uid : Uuid) (pname : String) (maxM : Nat) :
      GStep S (PartyManager.accept_join_request S pid uid pname maxM).1
  | addPlayer (S : RegState) (uid : Uuid) (pname : String) (pid : Uuid)
      (maxM : Nat)
      (hguard : ∀ p, dlookup S.parties pid = some p → uid ∉ p.banned_players) :
      GStep S (PartyManager.add_player_to_party S uid pname pid maxM).1
  | ban (S : RegState) (pid target : Uuid) :
      GStep S (PartyManager.party_ban_command S pid target).1

theorem GStep_preserves {S S' : RegState} (hstep : GStep S S') (h : RegInv S) :
    RegInv S' := by
  cases hstep with
  | create uid pname newPid now =>
    exact PartyManager.inv_create_party S uid pname newPid now h
  | disband pid => exact PartyManager.inv_disband_party S pid h
  | invite pid target now ttl maxPending hguard =>
    exact PartyManager.inv_invite_player S pid target now ttl maxPending h hguard
  | accept uid pname pid now ttl maxM =>
    exact PartyManager.inv_accept_invite S uid pname pid now ttl maxM h
  | leave uid online => exact PartyManager.inv_leave_party S uid online h
  | kick pid target hguard =>
    exact PartyManager.inv_kick_player S pid target h hguard
  | reqJoin uid pid now hguard =>
    exact PartyManager.inv_request_to_join S uid pid now h hguard
  | acceptReq pid uid pname maxM =>
    exact PartyManager.inv_accept_join_request S pid uid pname maxM h
  | addPlayer uid pname pid maxM hguard =>
    exact PartyManager.inv_add_player_to_party S uid pname pid maxM h hguard
  | ban pid target => exact PartyManager.inv_party_ban_command S pid target h

theorem RegInv_of_chain {S S' : RegState} (h : RegInv S)
    (hc : Relation.ReflTransGen GStep S S') : RegInv S' := by
  induction hc with
  | refl => exact h
  | tail _ hstep ih => exact GStep_preserves hstep ih

theorem RegInv_emptyState : RegInv PartyManager.emptyState := by
  intro pid p hp
  cases hp

/-! ### Claim C1 -/

/-- C1 counterexample.  The claim as stated fails on the code in two ways:

* `invite_player` performs no membership check, so inviting a player who
  is already a member of that party leaves `members ∩ invites ≠ ∅`
  (invariant 3): after `create_party` for player `0` and
  `invite_player(party, 0)` — which *succeeds* — the party fails §3.
* `transfer_leadership` writes `roles[old_leader] = OFFICER` after
  `remove_member` already erased the departing leader's role entry, so a
  plain leader departure leaves a role entry for a non-member
  (invariant 2): create for `0`, invite `2`, accept, then `leave_party 0`.
-/
theorem C1_counterexample :
    (PartyManager.invite_player
        (PartyManager.create_party PartyManager.emptyState 0 "A" 1 0).1
        1 0 0 300000 10).2 = true ∧
    (dlookup (PartyManager.invite_player
        (PartyManager.create_party PartyManager.emptyState 0 "A" 1 0).1
        1 0 0 300000 10).1.parties 1).map
      (fun p => decide (SpecInvariants p)) = some false ∧
    (dlookup (PartyManager.leave_party
        (PartyManager.accept_invite
          (PartyManager.invite_player
            (PartyManager.create_party PartyManager.emptyState 0 "A" 1 0).1
            1 2 0 300000 10).1
          2 "B" 1 0 300000 8).1
        0 (fun _ => false)).1.parties 1).map
      (fun p => decide (SpecInvariants p)) = some false := by
  refine ⟨by decide, by decide, by decide⟩

/-- C1 (amended): for any sequence of the named registry operations
invoked under the command layer's guards (invite and join-request targets
not already members of the target party, kicks never aimed at the leader,
direct adds never aimed at a player banned from that party — `ban` checks
its own guards), every party in `parties` satisfies, after each call:
invariant 1 (`leader ∈ members`), the first half of invariant 2
(`roles[leader] == Leader`; the "no role entries outside members" half is
violated by leadership transfer, see the counterexample), invariant 3
(`members` disjoint from `invites`, `joinRequests` and `bannedPlayers`)
and invariant 4 (no empty party). -/
theorem C1_theorem (S S' : RegState) (hInv : RegInv S)
    (hsteps : Relation.ReflTransGen GStep S S') :
    ∀ pid p, dlookup S'.parties pid = some p →
      p.leader ∈ p.members ∧
      dlookup p.roles p.leader = some PartyRole.LEADER ∧
      (∀ m ∈ p.members, dlookup p.invites m = none ∧
        dlookup p.join_requests m = none ∧ m ∉ p.banned_players) ∧
      p.members ≠ [] := by
  intro pid p hp
  obtain ⟨_, hinv⟩ := RegInv_of_chain hInv hsteps pid p hp
  exact ⟨hinv.leader_mem, hinv.leader_role,
    fun m hm => ⟨hinv.mem_no_invite m hm, hinv.mem_no_join m hm,
      hinv.mem_not_banned m hm⟩,
    hinv.nonempty⟩

/-- The party produced by: create for player `0` (party id `1`), invite
player `2`, player `2` accepts. -/
def c1WitnessParty : Party where
  id := 1
  leader := 0
  members := [0, 2]
  invites := []
  join_requests := []
  home := none
  created_at := 0
  name := none
  is_public := true
  roles := [(0, PartyRole.LEADER), (2, PartyRole.MEMBER)]
  banned_players := []
  total_play_time_ms := 0
  total_kills := 0
  total_deaths := 0
  color := "§6"
  icon := "*"
  allies := []
  last_daily_reward := []
  consecutive_days := 0
  last_reward_date := 0
  achievements := []
  last_seen := []

theorem C1_witness :
    c1WitnessParty.leader ∈ c1WitnessParty.members ∧
    dlookup c1WitnessParty.roles c1WitnessParty.leader = some PartyRole.LEADER ∧
    (∀ m ∈ c1WitnessParty.members,
      dlookup c1WitnessParty.invites m = none ∧
      dlookup c1WitnessParty.join_requests m = none ∧
      m ∉ c1WitnessParty.banned_players) ∧
    c1WitnessParty.members ≠ [] := by
  have hchain : Relation.ReflTransGen GStep PartyManager.emptyState
      (PartyManager.accept_invite
        (PartyManager.invite_player
          (PartyManager.create_party PartyManager.emptyState 0 "A" 1 0).1
          1 2 0 300000 10).1
        2 "B" 1 0 300000 8).1 := by
    refine Relation.ReflTransGen.tail (Relation.ReflTransGen.tail
      (Relation.ReflTransGen.tail Relation.ReflTransGen.refl
        (GStep.create PartyManager.emptyState 0 "A" 1 0))
      (GStep.invite _ 1 2 0 300000 10 ?_))
      (GStep.accept _ 2 "B" 1 0 300000 8)
    intro p hp
    rw [show dlookup (PartyManager.create_party PartyManager.emptyState
        0 "A" 1 0).1.parties 1 = some (Party.createP 1 0 0) from rfl] at hp
    cases hp
    decide
  exact C1_theorem PartyManager.emptyState _ RegInv_emptyState hchain
    1 c1WitnessParty (by decide)

/-! ### Claims C5 and C6 -/

theorem pick_new_leader_online {party : Party} {online : Uuid → Bool} {m0 : Uuid}
    (hm0 : m0 ∈ party.members) (hon : online m0 = true) :
    ∃ m, PartyManager.pick_new_leader party online = some m ∧
      m ∈ party.members ∧ online m = true := by
  unfold PartyManager.pick_new_leader
  cases hf : party.members.find? online with
  | some m => exact ⟨m, rfl, List.mem_of_find?_eq_some hf, List.find?_some hf⟩
  | none =>
    exfalso
    have := List.find?_eq_none.mp hf m0 hm0
    simp [hon] at this

theorem pick_new_leader_offline {party : Party} {online : Uuid → Bool}
    (hne : party.members ≠ [])
    (hoff : ∀ m ∈ party.members, online m = false) :
    ∃ m, PartyManager.pick_new_leader party online = some m ∧
      m ∈ party.members ∧ ∀ m2 ∈ party.members, uuidStrLe m m2 := by
  unfold PartyManager.pick_new_leader
  have hf : party.members.find? online = none :=
    List.find?_eq_none.mpr (fun x hx => by simp [hoff x hx])
  rw [hf]
  cases hms : sortByStr party.members with
  | nil =>
    exfalso
    obtain ⟨a, ha⟩ := List.exists_mem_of_ne_nil _ hne
    have hmem : a ∈ sortByStr party.members :=
      (List.mem_insertionSort uuidStrLe).mpr ha
    rw [hms] at hmem
    simp at hmem
  | cons m t =>
    refine ⟨m, rfl, ?_, ?_⟩
    · have hmem : m ∈ sortByStr party.members := by
        rw [hms]; exact List.mem_cons_self _ _
      exact (List.mem_insertionSort uuidStrLe).mp hmem
    · intro m2 hm2
      have hsorted : List.Sorted uuidStrLe (sortByStr party.members) :=
        List.sorted_insertionSort uuidStrLe party.members
      rw [hms] at hsorted
      have hm2s : m2 ∈ sortByStr party.members :=
        (List.mem_insertionSort uuidStrLe).mpr hm2
      rw [hms] at hm2s
      rcases List.mem_cons.mp hm2s with h1 | h1
      · rw [h1]; exact uuidStrLe_refl m
      · exact List.rel_of_sorted_cons hsorted m2 h1

/-- The party `{1, 2, 3}` with leader `1` used in C5's concrete scenarios. -/
def c5Party : Party :=
  { Party.createP 9 1 0 with
      members := [1, 2, 3],
      roles := [(1, PartyRole.LEADER), (2, PartyRole.MEMBER),
                (3, PartyRole.MEMBER)] }

def c5State : RegState where
  parties := [(9, c5Party)]
  player_to_party := [(1, 9), (2, 9), (3, 9)]
  player_invites := []
  player_names := []
  last_marker_positions := []
  dirty := false

/-- C5: on leader departure with remaining members, the elected leader is a
remaining member; it is online whenever any remaining member is online, and
when no remaining member is online it is the one whose canonical UUID
string is lexicographically least.  Concretely, for members `{1,2,3}` with
leader `1` and only `3` online, `leave_party 1` elects `3`; with nobody
online it elects `2 = min(2,3)`. -/
theorem C5_theorem :
    (∀ (S : RegState) (uid : Uuid) (online : Uuid → Bool) (ppid : Uuid)
        (party : Party),
      PartyManager.get_player_party S uid = some (ppid, party) →
      party.leader = uid →
      (party.remove_member uid).members ≠ [] →
      ∃ nl, (PartyManager.leave_party S uid online).2.2 = some nl ∧
        nl ∈ (party.remove_member uid).members ∧
        ((∃ m0 ∈ (party.remove_member uid).members, online m0 = true) →
          online nl = true) ∧
        ((∀ m0 ∈ (party.remove_member uid).members, online m0 = false) →
          ∀ m2 ∈ (party.remove_member uid).members, uuidStrLe nl m2)) ∧
    (PartyManager.leave_party c5State 1 (fun u => u == 3)).2.2 = some 3 ∧
    (PartyManager.leave_party c5State 1 (fun _ => false)).2.2 = some 2 := by
  refine ⟨?_, by decide, by decide⟩
  intro S uid online ppid party hg hld hne
  unfold PartyManager.leave_party
  rw [hg]
  dsimp only
  rw [if_neg (by
    intro hcontra
    exact hne (List.isEmpty_iff.mp hcontra))]
  rw [if_pos (by simp [Party.is_leader, hld])]
  by_cases hon : ∃ m0 ∈ (party.remove_member uid).members, online m0 = true
  · obtain ⟨m0, hm0, ho⟩ := hon
    obtain ⟨nl, hp1, hp2, hp3⟩ := pick_new_leader_online hm0 ho
    rw [hp1]
    refine ⟨nl, rfl, hp2, fun _ => hp3, fun hoff => ?_⟩
    have := hoff m0 hm0
    rw [ho] at this
    cases this
  · have hoff : ∀ m0 ∈ (party.remove_member uid).members, online m0 = false := by
      intro m0 hm0
      cases h2 : online m0 with
      | false => rfl
      | true => exact absurd ⟨m0, hm0, h2⟩ hon
    obtain ⟨nl, hp1, hp2, hp3⟩ := pick_new_leader_offline hne hoff
    rw [hp1]
    refine ⟨nl, rfl, hp2, fun hex => ?_, fun _ => hp3⟩
    obtain ⟨m0, hm0, ho⟩ := hex
    have := hoff m0 hm0
    rw [ho] at this
    cases this

theorem C5_witness :
    ∃ nl, (PartyManager.leave_party c5State 1 (fun u => u == 3)).2.2 = some nl ∧
      nl ∈ (c5Party.remove_member 1).members ∧
      ((∃ m0 ∈ (c5Party.remove_member 1).members, (fun u => u == 3) m0 = true) →
        (fun u => u == 3) nl = true) ∧
      ((∀ m0 ∈ (c5Party.remove_member 1).members, (fun u => u == 3) m0 = false) →
        ∀ m2 ∈ (c5Party.remove_member 1).members, uuidStrLe nl m2) :=
  C5_theorem.1 c5State 1 (fun u => u == 3) 9 c5Party (by decide) (by decide)
    (by decide)

/-- Helper for C6: if removing `uid` empties the member set, every member
was `uid`. -/
theorem sremove_nil_all {xs : List Uuid} {x : Uuid}
    (h : sremove xs x = []) : ∀ y ∈ xs, y = x := by
  intro y hy
  by_contra hne
  have : y ∈ sremove xs x := (mem_sremove xs x y).mpr ⟨hy, hne⟩
  rw [h] at this
  cases this

/-- C6: a leave that empties the member set disbands the party: the party
id disappears from `parties`, from every `playerToParty` entry and from
every `pendingInvites` entry — provided (as the registry maintains) every
index entry pointing at this party belongs to one of its members.
Concretely, for a two-member party created by `create(0)`, `invite(2)`,
`accept(2)`, both members leaving in sequence empties `parties` and
`playerToParty`. -/
theorem C6_theorem :
    (∀ (S : RegState) (uid ppid : Uuid) (party : Party) (online : Uuid → Bool),
      PartyManager.get_player_party S uid = some (ppid, party) →
      party.id = ppid →
      (party.remove_member uid).members = [] →
      (∀ m, dlookup S.player_to_party m = some ppid → m ∈ party.members) →
      dlookup (PartyManager.leave_party S uid online).1.parties ppid = none ∧
      (∀ m, dlookup (PartyManager.leave_party S uid online).1.player_to_party m ≠
        some ppid) ∧
      (∀ i, dlookup (PartyManager.leave_party S uid online).1.player_invites i ≠
        some ppid)) ∧
    ((PartyManager.leave_party
        (PartyManager.leave_party
          (PartyManager.accept_invite
            (PartyManager.invite_player
              (PartyManager.create_party PartyManager.emptyState 0 "A" 1 0).1
              1 2 0 300000 10).1
            2 "B" 1 0 300000 8).1
          0 (fun _ => false)).1
        2 (fun _ => false)).1.parties = [] ∧
      (PartyManager.leave_party
        (PartyManager.leave_party
          (PartyManager.accept_invite
            (PartyManager.invite_player
              (PartyManager.create_party PartyManager.emptyState 0 "A" 1 0).1
              1 2 0 300000 10).1
            2 "B" 1 0 300000 8).1
          0 (fun _ => false)).1
        2 (fun _ => false)).1.player_to_party = []) := by
  refine ⟨?_, by decide, by decide⟩
  intro S uid ppid party online hg hid hempty hcons
  have hall : ∀ y ∈ party.members, y = uid := sremove_nil_all hempty
  unfold PartyManager.leave_party
  rw [hg]
  dsimp only
  rw [if_pos (List.isEmpty_iff.mpr hempty)]
  unfold PartyManager.disband_party
  rw [show ((party.remove_member uid).id : Uuid) = ppid from hid]
  rw [show dlookup (dset S.parties ppid (party.remove_member uid)) ppid =
        some (party.remove_member uid) from dlookup_dset_self _ _ _]
  dsimp only
  rw [hempty, List.foldl_nil]
  refine ⟨dlookup_dpop_self _ _, ?_, ?_⟩
  · intro m hm
    by_cases hmu : uid = m
    · rw [← hmu, dlookup_dpop_self] at hm
      cases hm
    · rw [dlookup_dpop_ne _ _ _ hmu] at hm
      exact hmu ((hall m (hcons m hm)).symm)
  · intro i hi
    have := dlookup_filter_prop _ hi
    simp at this

/-- A one-member party (leader `1`, party id `9`) whose single leave
empties it. -/
def c6Party : Party := Party.createP 9 1 0

def c6State : RegState where
  parties := [(9, c6Party)]
  player_to_party := [(1, 9)]
  player_invites := []
  player_names := []
  last_marker_positions := []
  dirty := false

theorem C6_witness :
    dlookup (PartyManager.leave_party c6State 1 (fun _ => false)).1.parties 9 =
      none ∧
    (∀ m, dlookup (PartyManager.leave_party c6State 1
      (fun _ => false)).1.player_to_party m ≠ some 9) ∧
    (∀ i, dlookup (PartyManager.leave_party c6State 1
      (fun _ => false)).1.player_invites i ≠ some 9) := by
  refine C6_theorem.1 c6State 1 9 c6Party (fun _ => false) (by decide) (by decide)
    (by decide) ?_
  intro m hm
  have hmem := dlookup_mem hm
  simp [c6State] at hmem
  simp [c6Party, Party.createP, hmem]

/-! ### Claims C3 and C4 -/

theorem dset_lookup_self {K V : Type} [DecidableEq K]
    {m : List (K × V)} {k : K} {v : V} (h : dlookup m k = some v) :
    dset m k v = m := by
  induction m with
  | nil => simp at h
  | cons kv rest ih =>
    obtain ⟨k0, v0⟩ := kv
    by_cases h0 : k0 = k
    · rw [dlookup_cons, if_pos h0] at h
      cases h
      simp [dset, h0]
    · rw [dlookup_cons, if_neg h0] at h
      simp [dset, h0, ih h]

/-- C3 counterexample: `accept_invite` of an *expired* invite returns a
rejection yet mutates the registry (the invite and its `pendingInvites`
entry are removed and the state is marked dirty).  Invite sent at
`t = 1000` with TTL `300000`; accepting at `301001` is rejected but
changes the state. -/
theorem C3_counterexample :
    (PartyManager.accept_invite
      (PartyManager.invite_player
        (PartyManager.create_party PartyManager.emptyState 0 "A" 1 0).1
        1 2 1000 300000 10).1
      2 "B" 1 301001 300000 8).2 = false ∧
    (PartyManager.accept_invite
      (PartyManager.invite_player
        (PartyManager.create_party PartyManager.emptyState 0 "A" 1 0).1
        1 2 1000 300000 10).1
      2 "B" 1 301001 300000 8).1 ≠
      (PartyManager.invite_player
        (PartyManager.create_party PartyManager.emptyState 0 "A" 1 0).1
        1 2 1000 300000 10).1 := by
  refine ⟨by decide, by decide⟩

/-- C3 (amended): every rejected registry operation leaves the state
exactly unchanged, except for three paths that mutate before rejecting:
`invite_player`'s lazy expiry sweep (a rejected invite leaves exactly the
swept state, and the state is unchanged when nothing was expired),
`accept_invite`'s expired-invite rejection (removes the invite and its
`pendingInvites` entry, see the counterexample), and `accept_join_request`,
which removes the join request before the membership/capacity checks of
the inner add.  All other rejections — already in a party, at capacity,
duplicate invite or request, banned target, no live invite or request,
unknown player or party — return the state byte-for-byte unchanged. -/
theorem C3_theorem :
    (∀ (S : RegState) (uid : Uuid) (pname : String) (newPid : Uuid) (now : Int),
      (PartyManager.create_party S uid pname newPid now).2 = none →
      (PartyManager.create_party S uid pname newPid now).1 = S) ∧
    (∀ (S : RegState) (pid : Uuid),
      (PartyManager.disband_party S pid).2 = false →
      (PartyManager.disband_party S pid).1 = S) ∧
    (∀ (S : RegState) (uid : Uuid) (online : Uuid → Bool),
      PartyManager.get_player_party S uid = none →
      (PartyManager.leave_party S uid online).1 = S) ∧
    (∀ (S : RegState) (pid target : Uuid) (party : Party),
      dlookup S.parties pid = some party → target ∉ party.members →
      PartyManager.kick_player S pid target = (S, false)) ∧
    (∀ (S : RegState) (uid pid : Uuid) (now : Int),
      (PartyManager.request_to_join S uid pid now).2 = false →
      (PartyManager.request_to_join S uid pid now).1 = S) ∧
    (∀ (S : RegState) (pid uid : Uuid),
      (PartyManager.deny_join_request S pid uid).2 = false →
      (PartyManager.deny_join_request S pid uid).1 = S) ∧
    (∀ (S : RegState) (uid : Uuid) (pname : String) (pid : Uuid) (maxM : Nat),
      (PartyManager.add_player_to_party S uid pname pid maxM).2 = false →
      (PartyManager.add_player_to_party S uid pname pid maxM).1 = S) ∧
    (∀ (S : RegState) (pid uid : Uuid) (pname : String) (maxM : Nat)
        (party : Party),
      dlookup S.parties pid = some party →
      party.has_join_request uid = false →
      PartyManager.accept_join_request S pid uid pname maxM = (S, false)) ∧
    (∀ (S : RegState) (uid : Uuid) (pname : String) (pid : Uuid)
        (now ttl : Int) (maxM : Nat) (party : Party),
      dlookup S.parties pid = some party →
      (party.has_invite uid = false →
        PartyManager.accept_invite S uid pname pid now ttl maxM = (S, false)) ∧
      (∀ t, dlookup party.invites uid = some t → now - t ≤ ttl →
        (PartyManager.accept_invite S uid pname pid now ttl maxM).2 = false →
        (PartyManager.accept_invite S uid pname pid now ttl maxM).1 = S)) ∧
    (∀ (S : RegState) (pid target : Uuid) (now ttl : Int) (maxP : Nat)
        (party : Party),
      dlookup S.parties pid = some party →
      ((PartyManager.invite_player S pid target now ttl maxP).2 = false →
        (PartyManager.invite_player S pid target now ttl maxP).1 =
          { S with
              parties := dset S.parties pid (party.clean_expired_invites ttl now).2,
              player_invites := (party.clean_expired_invites ttl now).1.foldl
                (fun acc eid =>
                  if dlookup acc eid = some party.id then dpop acc eid else acc)
                S.player_invites }) ∧
      ((party.clean_expired_invites ttl now).1 = [] →
        (PartyManager.invite_player S pid target now ttl maxP).2 = false →
        (PartyManager.invite_player S pid target now ttl maxP).1 = S)) := by
  refine ⟨?_, ?_, ?_, ?_, ?_, ?_, ?_, ?_, ?_, ?_⟩
  · intro S uid pname newPid now h
    unfold PartyManager.create_party at h ⊢
    split
    · rfl
    · rename_i hc
      rw [if_neg hc] at h
      simp at h
  · intro S pid h
    unfold PartyManager.disband_party at h ⊢
    split
    · rfl
    · rename_i party hp
      rw [hp] at h
      simp at h
  · intro S uid online h
    unfold PartyManager.leave_party
    rw [h]
  · intro S pid target party hp hmem
    unfold PartyManager.kick_player
    rw [hp]
    dsimp only
    rw [if_pos hmem]
  · intro S uid pid now h
    unfold PartyManager.request_to_join at h ⊢
    split
    · rfl
    · rename_i party hp
      split
      · rfl
      · rename_i hc1
        split
        · rfl
        · rename_i hc2
          rw [hp] at h
          dsimp only at h
          rw [if_neg hc1, if_neg hc2] at h
          simp at h
  · intro S pid uid h
    unfold PartyManager.deny_join_request at h ⊢
    split
    · rfl
    · rename_i party hp
      split
      · rfl
      · rename_i hc1
        rw [hp] at h
        dsimp only at h
        rw [if_neg hc1] at h
        simp at h
  · intro S uid pname pid maxM h
    unfold PartyManager.add_player_to_party at h ⊢
    split
    · rfl
    · rename_i party hp
      dsimp only
      split
      · rfl
      · rename_i hc1
        split
        · rfl
        · rename_i hc2
          rw [hp] at h
          dsimp only at h
          rw [if_neg hc1, if_neg hc2] at h
          simp at h
  · intro S pid uid pname maxM party hp hreq
    unfold PartyManager.accept_join_request
    rw [hp]
    dsimp only
    rw [if_pos (by simp [hreq])]
  · intro S uid pname pid now ttl maxM party hp
    constructor
    · intro hnoinv
      unfold PartyManager.accept_invite
      rw [hp]
      dsimp only
      rw [if_pos (by simp [hnoinv])]
    · intro t ht hfresh h
      unfold PartyManager.accept_invite at h ⊢
      rw [hp] at h ⊢
      dsimp only at h ⊢
      rw [if_neg (by simp [Party.has_invite, ht])] at h ⊢
      rw [show (dlookup party.invites uid).getD 0 = t by rw [ht]; rfl] at h ⊢
      rw [if_neg (by omega)] at h ⊢
      split
      · rfl
      · rename_i hc1
        split
        · rfl
        · rename_i hc2
          split
          · rfl
          · rename_i hc3
            rw [if_neg hc1, if_neg hc2, if_neg hc3] at h
            simp at h
  · intro S pid target now ttl maxP party hp
    constructor
    · intro h
      unfold PartyManager.invite_player at h ⊢
      rw [hp] at h ⊢
      dsimp only at h ⊢
      split
      · rfl
      · rename_i hc1
        split
        · rfl
        · rename_i hc2
          rw [if_neg hc1, if_neg hc2] at h
          simp at h
    · intro hnone h
      unfold PartyManager.invite_player at h ⊢
      rw [hp] at h ⊢
      dsimp only at h ⊢
      have hfilter : party.invites.filter
          (fun kv => ¬ kv.2 < now - ttl) = party.invites := by
        refine List.filter_eq_self.mpr (fun kv hkv => ?_)
        have hemp : party.invites.filter (fun kv => kv.2 < now - ttl) = [] :=
          List.map_eq_nil_iff.mp hnone
        have := List.filter_eq_nil_iff.mp hemp kv hkv
        simpa using this
      have hparty : (party.clean_expired_invites ttl now).2 = party := by
        unfold Party.clean_expired_invites
        dsimp only
        rw [hfilter]
      rw [hnone] at h ⊢
      rw [hparty] at h ⊢
      rw [dset_lookup_self hp] at h ⊢
      split
      · rfl
      · rename_i hc1
        split
        · rfl
        · rename_i hc2
          rw [if_neg hc1, if_neg hc2] at h
          simp at h

def c3State : RegState :=
  (PartyManager.invite_player
    (PartyManager.create_party PartyManager.emptyState 0 "A" 1 0).1
    1 2 1000 300000 10).1

/-- The party registered in `c3State` (and `c4State`). -/
def c3Party : Party :=
  { Party.createP 1 0 0 with invites := [(2, 1000)] }

theorem C3_witness :
    (PartyManager.create_party c3State 0 "A" 7 0).1 = c3State ∧
    (PartyManager.disband_party c3State 5).1 = c3State ∧
    (PartyManager.leave_party c3State 4 (fun _ => false)).1 = c3State ∧
    PartyManager.kick_player c3State 1 4 = (c3State, false) ∧
    (PartyManager.request_to_join c3State 0 42 50).1 = c3State ∧
    (PartyManager.deny_join_request c3State 1 2).1 = c3State ∧
    (PartyManager.add_player_to_party c3State 0 "A" 1 8).1 = c3State ∧
    PartyManager.accept_join_request c3State 1 2 "B" 8 = (c3State, false) ∧
    PartyManager.accept_invite c3State 4 "D" 1 1000 300000 8 = (c3State, false) ∧
    (PartyManager.accept_invite c3State 2 "B" 1 1000 300000 0).1 = c3State ∧
    (PartyManager.invite_player c3State 1 2 1000 300000 10).1 = c3State := by
  refine ⟨C3_theorem.1 c3State 0 "A" 7 0 (by decide),
    C3_theorem.2.1 c3State 5 (by decide),
    C3_theorem.2.2.1 c3State 4 (fun _ => false) (by decide),
    C3_theorem.2.2.2.1 c3State 1 4 c3Party (by decide) (by decide),
    C3_theorem.2.2.2.2.1 c3State 0 42 50 (by decide),
    C3_theorem.2.2.2.2.2.1 c3State 1 2 (by decide),
    C3_theorem.2.2.2.2.2.2.1 c3State 0 "A" 1 8 (by decide),
    C3_theorem.2.2.2.2.2.2.2.1 c3State 1 2 "B" 8 c3Party (by decide) (by decide),
    (C3_theorem.2.2.2.2.2.2.2.2.1 c3State 4 "D" 1 1000 300000 8 c3Party
      (by decide)).1 (by decide),
    (C3_theorem.2.2.2.2.2.2.2.2.1 c3State 2 "B" 1 1000 300000 0 c3Party
      (by decide)).2 1000 (by decide) (by decide) (by decide),
    (C3_theorem.2.2.2.2.2.2.2.2.2 c3State 1 2 1000 300000 10 c3Party
      (by decide)).2 (by decide) (by decide)⟩

/-- C4 counterexample.  The expiry check is `now - sent_at >
expiration_ms` (strict), so an invite recorded at `t = 1000` with TTL
`T = 300000` is still *accepted* at `t + T = 301000`, where the claim
says it is rejected. -/
theorem C4_counterexample :
    (PartyManager.accept_invite
      (PartyManager.invite_player
        (PartyManager.create_party PartyManager.emptyState 0 "A" 1 0).1
        1 2 1000 300000 10).1
      2 "B" 1 301000 300000 8).2 = true := by decide

/-- C4 (amended): with all other acceptance preconditions holding, an
invite recorded at time `t` with TTL `T` is accepted by `accept_invite`
at time `now` exactly when `now - t ≤ T`: in particular it is accepted at
`t + T - 1` *and* at `t + T`, and rejected from `t + T + 1` on — the
expiry check rejects exactly when the elapsed time exceeds `T`. -/
theorem C4_theorem (S : RegState) (uid : Uuid) (pname : String) (pid : Uuid)
    (party : Party) (t T now : Int) (maxM : Nat)
    (hp : dlookup S.parties pid = some party)
    (hinv : dlookup party.invites uid = some t)
    (hcap : party.members.length < maxM)
    (hban : uid ∉ party.banned_players)
    (hin : PartyManager.is_in_party S uid = false) :
    (PartyManager.accept_invite S uid pname pid now T maxM).2 = true ↔
      now - t ≤ T := by
  unfold PartyManager.accept_invite
  rw [hp]
  dsimp only
  rw [if_neg (by simp [Party.has_invite, hinv])]
  rw [show (dlookup party.invites uid).getD 0 = t by rw [hinv]; rfl]
  by_cases hexp : T < now - t
  · rw [if_pos hexp]
    simp
    omega
  · rw [if_neg hexp]
    rw [if_neg (by omega : ¬ maxM ≤ party.members.length)]
    rw [if_neg hban]
    rw [if_neg (by simp [hin])]
    simp
    omega

theorem C4_witness :
    ((PartyManager.accept_invite c3State 2 "B" 1 301000 300000 8).2 = true ↔
      (301000 : Int) - 1000 ≤ 300000) :=
  C4_theorem c3State 2 "B" 1 c3Party 1000 300000 301000 8 (by decide)
    (by decide) (by decide) (by decide) (by decide)

/-! ### Claims C7 and C9 -/

/-- C7: `claim_daily_reward` sets `consecutiveDays` to 1 on the first-ever
claim (`lastRewardDate` still 0); with a prior `lastRewardDate`,
`daysSince = floor((now - lastRewardDate) / 86400000)` increments the
streak when 1 and resets it to 1 when greater; claims at `t0`, `t0 + 1d`,
`t0 + 3d` produce the sequence `1, 2, 1`; and `canClaimDailyReward` holds
exactly when the player has no prior claim or at least `86,400,000` ms
elapsed since it. -/
theorem C7_theorem (p : Party) (pid : Uuid) (now : Int) :
    (p.last_reward_date = 0 →
      (p.claim_daily_reward pid now).consecutive_days = 1) ∧
    (0 < p.last_reward_date →
      ((now - p.last_reward_date).fdiv MILLIS_PER_DAY = 1 →
        (p.claim_daily_reward pid now).consecutive_days =
          p.consecutive_days + 1) ∧
      (1 < (now - p.last_reward_date).fdiv MILLIS_PER_DAY →
        (p.claim_daily_reward pid now).consecutive_days = 1)) ∧
    (p.can_claim_daily_reward pid now = true ↔
      dlookup p.last_daily_reward pid = none ∨
      ∃ last, dlookup p.last_daily_reward pid = some last ∧
        86400000 ≤ now - last) ∧
    ((((Party.createP 1 0 0).claim_daily_reward 0 1000000).consecutive_days,
      (((Party.createP 1 0 0).claim_daily_reward 0 1000000).claim_daily_reward
        0 (1000000 + 86400000)).consecutive_days,
      ((((Party.createP 1 0 0).claim_daily_reward 0 1000000).claim_daily_reward
        0 (1000000 + 86400000)).claim_daily_reward
        0 (1000000 + 3 * 86400000)).consecutive_days) = (1, 2, 1)) := by
  refine ⟨?_, ?_, ?_, by decide⟩
  · intro h0
    unfold Party.claim_daily_reward
    dsimp only
    rw [if_neg (by omega)]
  · intro hpos
    constructor
    · intro hd
      unfold Party.claim_daily_reward
      dsimp only
      rw [if_pos hpos, if_pos hd]
    · intro hd
      unfold Party.claim_daily_reward
      dsimp only
      rw [if_pos hpos, if_neg (by omega), if_pos hd]
  · unfold Party.can_claim_daily_reward
    cases hl : dlookup p.last_daily_reward pid with
    | none => simp
    | some last =>
      simp only [MILLIS_PER_DAY]
      constructor
      · intro h
        refine Or.inr ⟨last, rfl, ?_⟩
        have := of_decide_eq_true h
        omega
      · intro h
        rcases h with h | ⟨last2, hl2, h2⟩
        · cases h
        · cases hl2
          exact decide_eq_true (by omega)

def c7Party : Party :=
  { Party.createP 1 0 0 with
      last_reward_date := 1000000, consecutive_days := 1,
      last_daily_reward := [(0, 1000000)] }

theorem C7_witness :
    (c7Party.claim_daily_reward 0 (1000000 + 86400000)).consecutive_days =
      c7Party.consecutive_days + 1 ∧
    (c7Party.claim_daily_reward 0 (1000000 + 3 * 86400000)).consecutive_days = 1 ∧
    ((Party.createP 1 0 0).claim_daily_reward 0 5).consecutive_days = 1 ∧
    (c7Party.can_claim_daily_reward 0 (1000000 + 86400000) = true ↔
      dlookup c7Party.last_daily_reward 0 = none ∨
      ∃ last, dlookup c7Party.last_daily_reward 0 = some last ∧
        86400000 ≤ (1000000 + 86400000 : Int) - last) :=
  ⟨((C7_theorem c7Party 0 (1000000 + 86400000)).2.1 (by decide)).1 (by decide),
   ((C7_theorem c7Party 0 (1000000 + 3 * 86400000)).2.1 (by decide)).2 (by decide),
   (C7_theorem (Party.createP 1 0 0) 0 5).1 (by decide),
   (C7_theorem c7Party 0 (1000000 + 86400000)).2.2.1⟩

/-- C9: `save_all(force)` attempts storage I/O exactly when `dirty ||
force`; a successful save clears the dirty flag; a failed save leaves the
dirty flag as it was — in particular, if it was set it remains set, so the
next periodic flush retries; and when no I/O is attempted the state is
unchanged. -/
theorem C9_theorem (S : RegState) (force saveOk : Bool) :
    ((PartyManager.save_all S force saveOk).2 = (force || S.dirty)) ∧
    ((PartyManager.save_all S force saveOk).2 = true → saveOk = true →
      (PartyManager.save_all S force saveOk).1.dirty = false) ∧
    (saveOk = false →
      (PartyManager.save_all S force saveOk).1.dirty = S.dirty) ∧
    (S.dirty = true → saveOk = false →
      (PartyManager.save_all S force saveOk).1.dirty = true) ∧
    ((PartyManager.save_all S force saveOk).2 = false →
      (PartyManager.save_all S force saveOk).1 = S) := by
  unfold PartyManager.save_all
  cases force with
  | false =>
    cases hd : S.dirty with
    | false =>
      cases saveOk with
      | false => simp [hd]
      | true => simp [hd]
    | true =>
      cases saveOk with
      | false => simp [hd]
      | true => simp [hd]
  | true =>
    cases hd : S.dirty with
    | false =>
      cases saveOk with
      | false => simp [hd]
      | true => simp [hd]
    | true =>
      cases saveOk with
      | false => simp [hd]
      | true => simp [hd]

def c9State : RegState := { PartyManager.emptyState with dirty := true }

theorem C9_witness :
    ((PartyManager.save_all c9State false true).2 = (false || c9State.dirty)) ∧
    ((PartyManager.save_all c9State false true).1.dirty = false) ∧
    ((PartyManager.save_all c9State false false).1.dirty = true) ∧
    ((PartyManager.save_all PartyManager.emptyState false true).1 =
      PartyManager.emptyState) :=
  ⟨(C9_theorem c9State false true).1,
   (C9_theorem c9State false true).2.1 (by decide) rfl,
   (C9_theorem c9State false false).2.2.2.1 (by decide) rfl,
   (C9_theorem PartyManager.emptyState false true).2.2.2.2 (by decide)⟩

/-! ### JSON values and Python coercion semantics

Serialization (`to_dict` / `from_dict` in `models.py`, and the post-parse
logic of `PartyStorage.load`) works on the values produced by `json.load`:
`None`, `bool`, `int`, `float`, `str`, `list`, `dict`.  `JValue` models
that universe (floats as rationals, which the code moves around without
arithmetic).  Exceptions raised while decoding (a `ValueError` from
`int()`/`float()`, an `AttributeError` from `.strip()` on a non-string, a
`TypeError` from iterating a non-iterable) are the `Except Unit` error. -/

inductive JValue where
  | jnull
  | jbool (b : Bool)
  | jint (n : Int)
  | jnum (q : Rat)
  | jstr (s : String)
  | jarr (elems : List JValue)
  | jobj (fields : List (String × JValue))

namespace JValue

/-- Python truthiness (`bool(v)`). -/
def pyTruthy : JValue → Bool
  | jnull => false
  | jbool b => b
  | jint n => n ≠ 0
  | jnum q => q ≠ 0
  | jstr s => s ≠ ""
  | jarr l => ¬ l.isEmpty
  | jobj l => ¬ l.isEmpty

/-- `str(v)`.  Strings, ints, bools and `None` render exactly as CPython
does; floats and containers get a deterministic rendering that the
codebase only ever feeds to `UUID(...)` (where any such rendering fails
to parse, as in CPython). -/
def pyStr : JValue → String
  | jnull => "None"
  | jbool true => "True"
  | jbool false => "False"
  | jint n => toString n
  | jnum q => toString q
  | jstr s => s
  | jarr l => "[" ++ String.intercalate ", " (l.map (fun v => pyStrAux v)) ++ "]"
  | jobj l =>
      "\x7b" ++ String.intercalate ", " (l.map (fun kv => kv.1)) ++ "\x7d"
where
  pyStrAux : JValue → String
  | jnull => "None"
  | jbool true => "True"
  | jbool false => "False"
  | jint n => toString n
  | jnum q => toString q
  | jstr s => s
  | jarr _ => "[...]"
  | jobj _ => "\x7b...\x7d"

end JValue

def isSpaceChar (c : Char) : Bool :=
  c = ' ' ∨ c = '\t' ∨ c = '\n' ∨ c = '\r' ∨ c = '\x0b' ∨ c = '\x0c'

/-- Python `str.strip()` (over the ASCII whitespace the codebase meets). -/
def pyStrip (s : String) : String :=
  String.mk (((s.data.dropWhile isSpaceChar).reverse.dropWhile isSpaceChar).reverse)

def toLowerChar (c : Char) : Char :=
  if 65 ≤ c.toNat ∧ c.toNat ≤ 90 then Char.ofNat (c.toNat + 32) else c

/-- `value.strip().lower()` as used by `PartyRole.parse`. -/
def pyStripLower (s : String) : String :=
  String.mk ((((s.data.dropWhile isSpaceChar).reverse.dropWhile
    isSpaceChar).reverse).map toLowerChar)

def digitVal (c : Char) : Option Nat :=
  if 48 ≤ c.toNat ∧ c.toNat ≤ 57 then some (c.toNat - 48) else none

def digitsToNat : List Char → Option Nat
  | [] => none
  | cs => cs.foldl (fun acc c =>
      match acc, digitVal c with
      | some a, some d => some (a * 10 + d)
      | _, _ => none) (some 0)

/-- Python `int(string)`: optional surrounding whitespace, optional sign,
decimal digits (CPython additionally tolerates single underscores between
digits; never produced by this codebase and not modelled). -/
def strToInt (s : String) : Option Int :=
  let cs := ((s.data.dropWhile isSpaceChar).reverse.dropWhile isSpaceChar).reverse
  match cs with
  | '-' :: rest => (digitsToNat rest).map (fun n => -(n : Int))
  | '+' :: rest => (digitsToNat rest).map (fun n => (n : Int))
  | rest => (digitsToNat rest).map (fun n => (n : Int))

/-- Truncation toward zero (`int(float)`). -/
def ratTrunc (q : Rat) : Int := q.num / (q.den : Int)

/-- Python `int(v)`: ints pass through, bools become 0/1, floats truncate,
integer-looking strings parse, everything else raises. -/
def pyToInt : JValue → Except Unit Int
  | .jint n => .ok n
  | .jbool b => .ok (if b then 1 else 0)
  | .jnum q => .ok (ratTrunc q)
  | .jstr s =>
      match strToInt s with
      | some n => .ok n
      | none => .error ()
  | _ => .error ()

def strToRat (s : String) : Option Rat :=
  let cs := ((s.data.dropWhile isSpaceChar).reverse.dropWhile isSpaceChar).reverse
  let core : List Char → Option Rat := fun ds =>
    match ds.span (fun c => (digitVal c).isSome) with
    | (intPart, []) => (digitsToNat intPart).map (fun n => (n : Rat))
    | (intPart, '.' :: fracPart) =>
        match digitsToNat intPart, digitsToNat fracPart with
        | some ip, some fp =>
            some ((ip : Rat) + (fp : Rat) / ((10 : Rat) ^ fracPart.length))
        | _, _ => none
    | _ => none
  match cs with
  | '-' :: rest => (core rest).map (fun q => -q)
  | '+' :: rest => core rest
  | rest => core rest

/-- Python `float(v)` (decimal strings only; `inf`/`nan`/exponents never
arise from this codebase's own output and are not modelled). -/
def pyToFloat : JValue → Except Unit Rat
  | .jnum q => .ok q
  | .jint n => .ok (n : Rat)
  | .jbool b => .ok (if b then 1 else 0)
  | .jstr s =>
      match strToRat s with
      | some q => .ok q
      | none => .error ()
  | _ => .error ()

/-- `for x in v`: lists iterate their elements, strings their characters,
dicts their keys; everything else raises `TypeError`. -/
def pyIter : JValue → Except Unit (List JValue)
  | .jarr l => .ok l
  | .jstr s => .ok (s.data.map (fun c => .jstr (String.mk [c])))
  | .jobj l => .ok (l.map (fun kv => .jstr kv.1))
  | _ => .error ()

/-- `dict(v)`: a dict copies; a list of `[key, value]` pairs with string
keys converts; everything else raises (shapes outside the JSON universe
the codebase reads are not modelled). -/
def pyDict : JValue → Except Unit (List (String × JValue))
  | .jobj l => .ok l
  | .jarr l =>
      l.foldlM (fun acc e =>
        match e with
        | .jarr [.jstr k, v] => .ok (dset acc k v)
        | _ => .error ()) []
  | _ => .error ()

/-- `data.get(key)` on the already-parsed JSON object. -/
def jGet (fields : List (String × JValue)) (key : String) : Option JValue :=
  dlookup fields key

/-- `_parse_uuid(value)` = `UUID(str(value))`, `None` on failure. -/
def pyParseUuid (v : JValue) : Option Uuid := uuidPyParse (v.pyStr)

/-- `PartyRole.parse(value)` applied to a decoded JSON value: falsy values
give `MEMBER` without touching the string methods; truthy non-strings
raise `AttributeError` at `.strip()`. -/
def rolePyParse (v : JValue) : Except Unit PartyRole :=
  if v.pyTruthy = false then .ok PartyRole.MEMBER
  else
    match v with
    | .jstr s => .ok (PartyRole.ofValue (pyStripLower s))
    | _ => .error ()

/-! ### `to_dict` / `from_dict` and the JSON storage loader -/

/-- `sorted(xs)` on strings (Python string order is code-point
lexicographic). -/
def strLe (a b : String) : Prop := strLeB a.data b.data = true

instance : DecidableRel strLe :=
  fun a b => inferInstanceAs (Decidable (strLeB a.data b.data = true))

instance : IsTotal String strLe := ⟨fun _ _ => strLeB_total _ _⟩

instance : IsTrans String strLe := ⟨fun _ _ _ h1 h2 => strLeB_trans _ _ _ h1 h2⟩

def sortStrings (xs : List String) : List String := List.insertionSort strLe xs

namespace LocationData

def to_dict (l : LocationData) : JValue :=
  .jobj [("level", .jstr l.level), ("dimension", .jstr l.dimension),
    ("x", .jnum l.x), ("y", .jnum l.y), ("z", .jnum l.z),
    ("pitch", .jnum l.pitch), ("yaw", .jnum l.yaw)]

def from_dict (fields : List (String × JValue)) : Except Unit LocationData := do
  let x ← pyToFloat ((jGet fields "x").getD (.jnum 0))
  let y ← pyToFloat ((jGet fields "y").getD (.jnum 0))
  let z ← pyToFloat ((jGet fields "z").getD (.jnum 0))
  let pitch ← pyToFloat ((jGet fields "pitch").getD (.jnum 0))
  let yaw ← pyToFloat ((jGet fields "yaw").getD (.jnum 0))
  pure { level := JValue.pyStr ((jGet fields "level").getD (.jstr "")),
         dimension := JValue.pyStr ((jGet fields "dimension").getD
           (.jstr "overworld")),
         x, y, z, pitch, yaw }

end LocationData

namespace Party

def to_dict_fields (p : Party) : List (String × JValue) :=
  [("id", .jstr (uuidStr p.id)),
   ("leader", .jstr (uuidStr p.leader)),
   ("members", .jarr ((sortByStr p.members).map (fun u => .jstr (uuidStr u)))),
   ("invites", .jobj (p.invites.map (fun kv => (uuidStr kv.1, .jint kv.2)))),
   ("join_requests", .jobj (p.join_requests.map
     (fun kv => (uuidStr kv.1, .jint kv.2)))),
   ("home", match p.home with | some h => h.to_dict | none => .jnull),
   ("created_at", .jint p.created_at),
   ("name", match p.name with | some s => .jstr s | none => .jnull),
   ("is_public", .jbool p.is_public),
   ("roles", .jobj (p.roles.map (fun kv => (uuidStr kv.1, .jstr kv.2.value)))),
   ("banned_players", .jarr ((sortByStr p.banned_players).map
     (fun u => .jstr (uuidStr u)))),
   ("total_play_time_ms", .jint p.total_play_time_ms),
   ("total_kills", .jint p.total_kills),
   ("total_deaths", .jint p.total_deaths),
   ("color", .jstr p.color),
   ("icon", .jstr p.icon),
   ("allies", .jarr ((sortByStr p.allies).map (fun u => .jstr (uuidStr u)))),
   ("last_daily_reward", .jobj (p.last_daily_reward.map
     (fun kv => (uuidStr kv.1, .jint kv.2)))),
   ("consecutive_days", .jint p.consecutive_days),
   ("last_reward_date", .jint p.last_reward_date),
   ("achievements", .jarr ((sortStrings p.achievements).map .jstr)),
   ("last_seen", .jobj (p.last_seen.map (fun kv => (uuidStr kv.1, .jint kv.2))))]

def to_dict (p : Party) : JValue := .jobj p.to_dict_fields

/-- `{_parse_uuid(x) for x in v}` with `None` discarded. -/
def decodeUuidSet (v : JValue) : Except Unit (List Uuid) := do
  let l ← pyIter v
  pure (l.foldl (fun acc x =>
    match pyParseUuid x with
    | some u => listInsert acc u
    | none => acc) [])

/-- `{pid: int(ts) for raw, ts in dict(v).items() if (pid := parse(raw))}`:
the comprehension checks the filter first, so `int()` is only evaluated
for entries whose key parses. -/
def decodeTimestampMap (v : JValue) : Except Unit (List (Uuid × Int)) := do
  let kvs ← pyDict v
  kvs.foldlM (fun acc kv =>
    match uuidPyParse kv.1 with
    | none => pure acc
    | some pid => do
        let n ← pyToInt kv.2
        pure (dset acc pid n)) []

def decodeRoles (v : JValue) : Except Unit (List (Uuid × PartyRole)) := do
  let kvs ← pyDict v
  kvs.foldlM (fun acc kv =>
    match uuidPyParse kv.1 with
    | none => pure acc
    | some pid => do
        let r ← rolePyParse kv.2
        pure (dset acc pid r)) []

/-- `{str(x) for x in v}`. -/
def decodeStrSet (v : JValue) : Except Unit (List String) := do
  let l ← pyIter v
  pure (l.foldl (fun acc x => listInsert acc (JValue.pyStr x)) [])

/-- The final fix-up block of `from_dict`: force the leader into
`members`, force `roles[leader] = LEADER`, keep roles only for current
members. -/
def repairParty (p : Party) : Party :=
  let p1 := { p with members := listInsert p.members p.leader }
  let p2 := { p1 with roles := dset p1.roles p1.leader PartyRole.LEADER }
  { p2 with roles := p2.roles.filter (fun kv => kv.1 ∈ p2.members) }

/-- The `cls(...)` construction inside `from_dict` (after the id/leader
checks succeeded). -/
def from_dict_fields (party_id leader_id : Uuid)
    (data : List (String × JValue)) (nowMs : Int) : Except Unit Party := do
  let members ← decodeUuidSet ((jGet data "members").getD (.jarr []))
  let invites ← decodeTimestampMap ((jGet data "invites").getD (.jobj []))
  let join_requests ← decodeTimestampMap
    ((jGet data "join_requests").getD (.jobj []))
  let home ← match jGet data "home" with
    | some (.jobj hf) => do
        let l ← LocationData.from_dict hf
        pure (some l)
    | _ => pure (none : Option LocationData)
  let created_at ← pyToInt ((jGet data "created_at").getD (.jint nowMs))
  let name := match jGet data "name" with
    | some v => if v.pyTruthy then some v.pyStr else none
    | none => none
  let is_public := JValue.pyTruthy ((jGet data "is_public").getD (.jbool true))
  let roles ← decodeRoles ((jGet data "roles").getD (.jobj []))
  let banned_players ← decodeUuidSet
    ((jGet data "banned_players").getD (.jarr []))
  let total_play_time_ms ← pyToInt
    ((jGet data "total_play_time_ms").getD (.jint 0))
  let total_kills ← pyToInt ((jGet data "total_kills").getD (.jint 0))
  let total_deaths ← pyToInt ((jGet data "total_deaths").getD (.jint 0))
  let color := JValue.pyStr ((jGet data "color").getD (.jstr "§6"))
  let icon := JValue.pyStr ((jGet data "icon").getD (.jstr "*"))
  let allies ← decodeUuidSet ((jGet data "allies").getD (.jarr []))
  let last_daily_reward ← decodeTimestampMap
    ((jGet data "last_daily_reward").getD (.jobj []))
  let consecutive_days ← pyToInt
    ((jGet data "consecutive_days").getD (.jint 0))
  let last_reward_date ← pyToInt
    ((jGet data "last_reward_date").getD (.jint 0))
  let achievements ← decodeStrSet ((jGet data "achievements").getD (.jarr []))
  let last_seen ← decodeTimestampMap ((jGet data "last_seen").getD (.jobj []))
  pure { id := party_id, leader := leader_id, members, invites, join_requests,
         home, created_at, name, is_public, roles, banned_players,
         total_play_time_ms, total_kills, total_deaths, color, icon, allies,
         last_daily_reward, consecutive_days, last_reward_date, achievements,
         last_seen }

/-- `Party.from_dict(data)`: `None` when the party id or leader id is
missing or unparseable (before any other field is touched), otherwise the
decoded party with the repair block applied; any wrong-typed nested value
raises (the `Except` error). -/
def from_dict (data : List (String × JValue)) (nowMs : Int) :
    Except Unit (Option Party) :=
  match pyParseUuid ((jGet data "id").getD .jnull),
      pyParseUuid ((jGet data "leader").getD .jnull) with
  | some party_id, some leader_id =>
      (from_dict_fields party_id leader_id data nowMs).map
        (fun q => some (repairParty q))
  | _, _ => .ok none

end Party

/-- One entry of the `for entry in entries` loop of `PartyStorage.load`:
non-dict entries are skipped, `from_dict(...) is None` entries are
skipped, decoded parties land in `parties[party.id]`, and an exception
from `from_dict` propagates (the surrounding `load` has no per-entry
handler). -/
def decodeEntries (nowMs : Int) :
    List JValue → List (Uuid × Party) → Except Unit (List (Uuid × Party))
  | [], acc => .ok acc
  | e :: rest, acc =>
      match e with
      | .jobj fields =>
          match Party.from_dict fields nowMs with
          | .error () => .error ()
          | .ok none => decodeEntries nowMs rest acc
          | .ok (some party) => decodeEntries nowMs rest (dset acc party.id party)
      | _ => decodeEntries nowMs rest acc

/-- `PartyStorage.load` after a successful `json.load`: a list payload is
the entries themselves; a dict payload reads `parties` and the
`player_names` map (ill-formed name entries skipped); any other payload
yields empty state.  An exception inside the entry loop aborts the whole
load (caught by `PartyManager.load_all`, which then resets to an empty
registry). -/
def loadModel (payload : JValue) (nowMs : Int) :
    Except Unit (List (Uuid × Party) × List (Uuid × String)) :=
  match payload with
  | .jarr entries => do
      let ps ← decodeEntries nowMs entries []
      pure (ps, [])
  | .jobj fields => do
      let names :=
        match jGet fields "player_names" with
        | some (.jobj raw) =>
            raw.foldl (fun acc kv =>
              match uuidPyParse kv.1 with
              | none => acc
              | some pid =>
                  let nm := pyStrip (JValue.pyStr kv.2)
                  if nm = "" then acc else dset acc pid nm) []
        | _ => []
      let entries ← pyIter ((jGet fields "parties").getD (.jarr []))
      let ps ← decodeEntries nowMs entries []
      pure (ps, names)
  | _ => .ok ([], [])

/-! ### Claim C10 -/

deriving instance DecidableEq for Except

theorem dlookup_filter_eq {K V : Type} [DecidableEq K] {p : K × V → Bool}
    {m : List (K × V)} {k : K} {v : V}
    (h : dlookup m k = some v) (hp : p (k, v) = true) :
    dlookup (m.filter p) k = some v := by
  induction m with
  | nil => simp at h
  | cons kv0 rest ih =>
    obtain ⟨k0, v0⟩ := kv0
    by_cases h0 : k0 = k
    · subst h0
      rw [dlookup_cons, if_pos rfl] at h
      cases h
      rw [List.filter_cons_of_pos hp, dlookup_cons, if_pos rfl]
    · rw [dlookup_cons, if_neg h0] at h
      by_cases hp0 : p (k0, v0)
      · rw [List.filter_cons_of_pos hp0, dlookup_cons, if_neg h0]
        exact ih h
      · rw [List.filter_cons_of_neg hp0]
        exact ih h

theorem repairParty_leader_mem (q : Party) :
    (Party.repairParty q).leader ∈ (Party.repairParty q).members := by
  unfold Party.repairParty
  exact mem_listInsert_self _ _

theorem repairParty_leader_role (q : Party) :
    dlookup (Party.repairParty q).roles (Party.repairParty q).leader =
      some PartyRole.LEADER := by
  unfold Party.repairParty
  exact dlookup_filter_eq (dlookup_dset_self _ _ _)
    (by simp [mem_listInsert_self])

theorem repairParty_roles_sub (q : Party) :
    ∀ kv ∈ (Party.repairParty q).roles, kv.1 ∈ (Party.repairParty q).members := by
  unfold Party.repairParty
  intro kv hkv
  have := (List.mem_filter.mp hkv).2
  simpa using this

/-- C10: whenever `from_dict` succeeds (party id and leader id parse), the
result satisfies `leader ∈ members`, `roles[leader] == Leader` and `roles`
holds entries only for members — the final repair block enforces them
regardless of what the snapshot encoded. -/
theorem C10_theorem (data : List (String × JValue)) (now : Int) (p : Party)
    (h : Party.from_dict data now = .ok (some p)) :
    p.leader ∈ p.members ∧
    dlookup p.roles p.leader = some PartyRole.LEADER ∧
    ∀ kv ∈ p.roles, kv.1 ∈ p.members := by
  unfold Party.from_dict at h
  split at h
  · rename_i party_id leader_id _ _
    cases hq : Party.from_dict_fields party_id leader_id data now with
    | error e => rw [hq] at h; simp [Except.map] at h
    | ok q =>
      rw [hq] at h
      simp only [Except.map] at h
      cases h
      exact ⟨repairParty_leader_mem q, repairParty_leader_role q,
        repairParty_roles_sub q⟩
  · simp at h

/-- The decode of a snapshot that *violates* the invariants: leader `0`
absent from `members = [2]`, a non-Leader role for the leader and a role
entry for the stranger `7`.  `from_dict` repairs all three. -/
def c10Party : Party where
  id := 1
  leader := 0
  members := [2, 0]
  invites := []
  join_requests := []
  home := none
  created_at := 0
  name := none
  is_public := true
  roles := [(0, PartyRole.LEADER)]
  banned_players := []
  total_play_time_ms := 0
  total_kills := 0
  total_deaths := 0
  color := "§6"
  icon := "*"
  allies := []
  last_daily_reward := []
  consecutive_days := 0
  last_reward_date := 0
  achievements := []
  last_seen := []

theorem C10_witness :
    c10Party.leader ∈ c10Party.members ∧
    dlookup c10Party.roles c10Party.leader = some PartyRole.LEADER ∧
    ∀ kv ∈ c10Party.roles, kv.1 ∈ c10Party.members :=
  C10_theorem
    [("id", .jstr (uuidStr 1)), ("leader", .jstr (uuidStr 0)),
     ("members", .jarr [.jstr (uuidStr 2)]),
     ("roles", .jobj [(uuidStr 0, .jstr "recruit"),
                      (uuidStr 7, .jstr "officer")])]
    0 c10Party (by decide)

/-! ### Claim C8 -/

theorem ok_bind {α β : Type} (a : α) (f : α → Except Unit β) :
    (Except.ok a >>= f) = f a := rfl

theorem foldlM_exc_append {α β : Type} (f : β → α → Except Unit β)
    (l1 l2 : List α) (init : β) :
    List.foldlM f init (l1 ++ l2) =
      (List.foldlM f init l1) >>= fun b => List.foldlM f b l2 := by
  induction l1 generalizing init with
  | nil => simp
  | cons a t ih => simp [List.foldlM_cons, ih]

/-- C8 counterexample: a *wrong-typed nested value* is not dropped — it
raises.  The invite timestamp `"abc"` makes `int()` raise `ValueError`,
so `from_dict` fails entirely, and since `PartyStorage.load` has no
per-entry handler the exception aborts the whole load: the other,
well-formed party in the document is lost too (the claim says the bad
entry is dropped while the rest decodes). -/
theorem C8_counterexample :
    Party.from_dict
      [("id", .jstr (uuidStr 1)), ("leader", .jstr (uuidStr 0)),
       ("invites", .jobj [(uuidStr 2, .jstr "abc")])] 0 = .error () ∧
    loadModel (.jobj [("parties", .jarr
      [.jobj [("id", .jstr (uuidStr 3)), ("leader", .jstr (uuidStr 4))],
       .jobj [("id", .jstr (uuidStr 1)), ("leader", .jstr (uuidStr 0)),
              ("invites", .jobj [(uuidStr 2, .jstr "abc")])]])]) 0 =
      .error () := by
  refine ⟨by decide, by decide⟩

/-- The party decoded from the minimal well-formed entry
`{id: 3, leader: 4}` at `now = 0`. -/
def c8GoodParty : Party where
  id := 3
  leader := 4
  members := [4]
  invites := []
  join_requests := []
  home := none
  created_at := 0
  name := none
  is_public := true
  roles := [(4, PartyRole.LEADER)]
  banned_players := []
  total_play_time_ms := 0
  total_kills := 0
  total_deaths := 0
  color := "§6"
  icon := "*"
  allies := []
  last_daily_reward := []
  consecutive_days := 0
  last_reward_date := 0
  achievements := []
  last_seen := []

/-- C8 (amended): `from_dict` returns `None` exactly when the party id or
leader id is missing or unparseable; individual nested entries with
*unparseable identifiers* are dropped while the rest of the party decodes
(shown for set-valued and map-valued fields); the loader skips `None`
entries and non-dict entries while storing every decoded party under its
id, and succeeds whenever no entry raises — but a *wrong-typed value*
raises and aborts the entire load (see the counterexample), after which
`load_all` falls back to an empty registry. -/
theorem C8_theorem :
    (∀ (data : List (String × JValue)) (now : Int),
      Party.from_dict data now = .ok none ↔
        (pyParseUuid ((jGet data "id").getD .jnull) = none ∨
         pyParseUuid ((jGet data "leader").getD .jnull) = none)) ∧
    (∀ (l1 l2 : List JValue) (x : JValue), pyParseUuid x = none →
      Party.decodeUuidSet (.jarr (l1 ++ x :: l2)) =
        Party.decodeUuidSet (.jarr (l1 ++ l2))) ∧
    (∀ (kvs1 kvs2 : List (String × JValue)) (k : String) (v : JValue),
      uuidPyParse k = none →
      Party.decodeTimestampMap (.jobj (kvs1 ++ (k, v) :: kvs2)) =
        Party.decodeTimestampMap (.jobj (kvs1 ++ kvs2))) ∧
    (∀ (now : Int) (fields : List (String × JValue)) (rest : List JValue)
        (acc : List (Uuid × Party)),
      Party.from_dict fields now = .ok none →
      decodeEntries now (.jobj fields :: rest) acc =
        decodeEntries now rest acc) ∧
    (∀ (now : Int) (fields : List (String × JValue)) (rest : List JValue)
        (acc : List (Uuid × Party)),
      Party.from_dict fields now = .error () →
      decodeEntries now (.jobj fields :: rest) acc = .error ()) ∧
    (∀ (now : Int) (fields : List (String × JValue)) (rest : List JValue)
        (acc : List (Uuid × Party)) (p : Party),
      Party.from_dict fields now = .ok (some p) →
      decodeEntries now (.jobj fields :: rest) acc =
        decodeEntries now rest (dset acc p.id p)) ∧
    (∀ (now : Int) (entries : List JValue) (acc : List (Uuid × Party)),
      (∀ e ∈ entries, ∀ fields, e = .jobj fields →
        Party.from_dict fields now ≠ .error ()) →
      ∃ ps, decodeEntries now entries acc = .ok ps) ∧
    (loadModel (.jobj [("parties", .jarr
      [.jobj [("id", .jstr "bogus"), ("leader", .jstr (uuidStr 4))],
       .jobj [("id", .jstr (uuidStr 3)), ("leader", .jstr (uuidStr 4))]])]) 0 =
      .ok ([(3, c8GoodParty)], [])) := by
  refine ⟨?_, ?_, ?_, ?_, ?_, ?_, ?_, by decide⟩
  · intro data now
    unfold Party.from_dict
    cases hid : pyParseUuid ((jGet data "id").getD .jnull) with
    | none => simp
    | some party_id =>
      cases hlead : pyParseUuid ((jGet data "leader").getD .jnull) with
      | none => simp
      | some leader_id =>
        simp only
        constructor
        · intro h
          cases hq : Party.from_dict_fields party_id leader_id data now with
          | error e => rw [hq] at h; simp [Except.map] at h
          | ok q => rw [hq] at h; simp [Except.map] at h
        · intro h
          rcases h with h | h <;> cases h
  · intro l1 l2 x h
    unfold Party.decodeUuidSet
    simp only [pyIter, ok_bind, List.foldl_append, List.foldl_cons, h]
  · intro kvs1 kvs2 k v h
    unfold Party.decodeTimestampMap
    simp only [pyDict, ok_bind]
    rw [foldlM_exc_append, foldlM_exc_append]
    congr 1
    funext acc
    rw [List.foldlM_cons]
    simp [h]
  · intro now fields rest acc h
    simp only [decodeEntries, h]
  · intro now fields rest acc h
    simp only [decodeEntries, h]
  · intro now fields rest acc p h
    simp only [decodeEntries, h]
  · intro now entries
    induction entries with
    | nil => exact fun acc _ => ⟨acc, rfl⟩
    | cons e rest ih =>
      intro acc hok
      cases e with
      | jobj fields =>
        cases hq : Party.from_dict fields now with
        | error u =>
          cases u
          exact absurd hq
            (hok (.jobj fields) (List.mem_cons_self _ _) fields rfl)
        | ok o =>
          cases o with
          | none =>
            obtain ⟨ps, hps⟩ := ih acc
              (fun e he f hf => hok e (List.mem_cons_of_mem _ he) f hf)
            exact ⟨ps, by simp only [decodeEntries, hq]; exact hps⟩
          | some p =>
            obtain ⟨ps, hps⟩ := ih (dset acc p.id p)
              (fun e he f hf => hok e (List.mem_cons_of_mem _ he) f hf)
            exact ⟨ps, by simp only [decodeEntries, hq]; exact hps⟩
      | jnull =>
        obtain ⟨ps, hps⟩ := ih acc
          (fun e he f hf => hok e (List.mem_cons_of_mem _ he) f hf)
        exact ⟨ps, by simp only [decodeEntries]; exact hps⟩
      | jbool b =>
        obtain ⟨ps, hps⟩ := ih acc
          (fun e he f hf => hok e (List.mem_cons_of_mem _ he) f hf)
        exact ⟨ps, by simp only [decodeEntries]; exact hps⟩
      | jint n =>
        obtain ⟨ps, hps⟩ := ih acc
          (fun e he f hf => hok e (List.mem_cons_of_mem _ he) f hf)
        exact ⟨ps, by simp only [decodeEntries]; exact hps⟩
      | jnum q =>
        obtain ⟨ps, hps⟩ := ih acc
          (fun e he f hf => hok e (List.mem_cons_of_mem _ he) f hf)
        exact ⟨ps, by simp only [decodeEntries]; exact hps⟩
      | jstr s =>
        obtain ⟨ps, hps⟩ := ih acc
          (fun e he f hf => hok e (List.mem_cons_of_mem _ he) f hf)
        exact ⟨ps, by simp only [decodeEntries]; exact hps⟩
      | jarr l =>
        obtain ⟨ps, hps⟩ := ih acc
          (fun e he f hf => hok e (List.mem_cons_of_mem _ he) f hf)
        exact ⟨ps, by simp only [decodeEntries]; exact hps⟩

theorem C8_witness :
    (Party.from_dict [("id", .jstr "bogus"),
      ("leader", .jstr (uuidStr 4))] 0 = .ok none ↔
      (pyParseUuid ((jGet [("id", .jstr "bogus"),
        ("leader", .jstr (uuidStr 4))] "id").getD .jnull) = none ∨
       pyParseUuid ((jGet [("id", .jstr "bogus"),
        ("leader", .jstr (uuidStr 4))] "leader").getD .jnull) = none)) ∧
    (Party.decodeUuidSet (.jarr ([] ++ .jstr "zz" :: [.jstr (uuidStr 2)])) =
      Party.decodeUuidSet (.jarr ([] ++ [.jstr (uuidStr 2)]))) ∧
    (Party.decodeTimestampMap (.jobj ([] ++ ("zz", .jint 5) :: [])) =
      Party.decodeTimestampMap (.jobj ([] ++ []))) ∧
    (decodeEntries 0 (.jobj [("id", .jstr "bogus"),
        ("leader", .jstr (uuidStr 4))] :: []) [] = decodeEntries 0 [] []) ∧
    (∃ ps, decodeEntries 0 [.jobj [("id", .jstr (uuidStr 3)),
      ("leader", .jstr (uuidStr 4))]] [] = .ok ps) :=
  ⟨C8_theorem.1 _ 0,
   C8_theorem.2.1 [] [.jstr (uuidStr 2)] (.jstr "zz") (by decide),
   C8_theorem.2.2.1 [] [] "zz" (.jint 5) (by decide),
   C8_theorem.2.2.2.1 0 _ [] [] (by decide),
   C8_theorem.2.2.2.2.2.2.1 0 _ [] (by
     intro e he f hf
     rcases List.mem_singleton.mp he with rfl
     cases hf
     decide)⟩

/-! ### Claim C2 -/

theorem pure_bind_exc {α β : Type} (a : α) (f : α → Except Unit β) :
    ((pure a : Except Unit α) >>= f) = f a := rfl

theorem dlookup_append_none {K V : Type} [DecidableEq K]
    {l1 l2 : List (K × V)} {k : K}
    (h1 : dlookup l1 k = none) (h2 : dlookup l2 k = none) :
    dlookup (l1 ++ l2) k = none := by
  induction l1 with
  | nil => simpa using h2
  | cons kv rest ih =>
    obtain ⟨k0, v0⟩ := kv
    rw [dlookup_cons] at h1
    by_cases h0 : k0 = k
    · rw [if_pos h0] at h1; cases h1
    · rw [if_neg h0] at h1
      rw [List.cons_append, dlookup_cons, if_neg h0]
      exact ih h1

theorem dset_absent {K V : Type} [DecidableEq K]
    {m : List (K × V)} {k : K} (v : V)
    (h : dlookup m k = none) : dset m k v = m ++ [(k, v)] := by
  induction m with
  | nil => rfl
  | cons kv rest ih =>
    obtain ⟨k0, v0⟩ := kv
    rw [dlookup_cons] at h
    by_cases h0 : k0 = k
    · rw [if_pos h0] at h; cases h
    · rw [if_neg h0] at h
      simp [dset, h0, ih h]

theorem listInsert_of_mem {α : Type} [DecidableEq α] {xs : List α} {x : α}
    (h : x ∈ xs) : listInsert xs x = xs := by
  simp [listInsert, h]

theorem mem_sortByStr (l : List Uuid) (x : Uuid) : x ∈ sortByStr l ↔ x ∈ l :=
  (List.perm_insertionSort uuidStrLe l).mem_iff

theorem mem_sortStrings (l : List String) (x : String) :
    x ∈ sortStrings l ↔ x ∈ l :=
  (List.perm_insertionSort strLe l).mem_iff

theorem rolePyParse_value (r : PartyRole) :
    rolePyParse (JValue.jstr r.value) = .ok r := by
  cases r <;> decide

/-- Membership through the set-comprehension fold of `decodeUuidSet` when
every element is a canonically rendered UUID. -/
theorem uuidFold_mem (l : List Uuid) (acc : List Uuid)
    (hk : ∀ u ∈ l, u < 2 ^ 128) (x : Uuid) :
    x ∈ (l.map (fun u => JValue.jstr (uuidStr u))).foldl
      (fun acc x =>
        match pyParseUuid x with
        | some u => listInsert acc u
        | none => acc) acc ↔ x ∈ acc ∨ x ∈ l := by
  induction l generalizing acc with
  | nil => simp
  | cons k rest ih =>
    rw [List.map_cons, List.foldl_cons]
    have hp : pyParseUuid (JValue.jstr (uuidStr k)) = some k :=
      uuidPyParse_uuidStr (hk k (List.mem_cons_self _ _))
    simp only [hp]
    rw [ih (listInsert acc k) (fun u hu => hk u (List.mem_cons_of_mem _ hu))]
    rw [mem_listInsert]
    simp [List.mem_cons, or_assoc]

/-- Membership through the fold of `decodeStrSet`. -/
theorem strFold_mem (l : List String) (acc : List String) (x : String) :
    x ∈ (l.map JValue.jstr).foldl
      (fun acc x => listInsert acc (JValue.pyStr x)) acc ↔
    x ∈ acc ∨ x ∈ l := by
  induction l generalizing acc with
  | nil => simp
  | cons s rest ih =>
    rw [List.map_cons, List.foldl_cons]
    rw [ih (listInsert acc (JValue.pyStr (JValue.jstr s)))]
    rw [mem_listInsert]
    show (x ∈ acc ∨ x = s) ∨ x ∈ rest ↔ x ∈ acc ∨ x ∈ s :: rest
    simp [List.mem_cons, or_assoc]

theorem decodeUuidSet_sorted_mem (l : List Uuid)
    (hk : ∀ u ∈ l, u < 2 ^ 128) :
    ∃ S, Party.decodeUuidSet
        (JValue.jarr ((sortByStr l).map (fun u => JValue.jstr (uuidStr u)))) =
        Except.ok S ∧ ∀ x, x ∈ S ↔ x ∈ l := by
  refine ⟨_, rfl, ?_⟩
  intro x
  have h0 := uuidFold_mem (sortByStr l) []
    (fun u hu => hk u ((mem_sortByStr l u).mp hu)) x
  have h1 : (x ∈ ([] : List Uuid) ∨ x ∈ sortByStr l) ↔ x ∈ l := by
    simp [mem_sortByStr]
  exact h0.trans h1

theorem decodeStrSet_sorted_mem (l : List String) :
    ∃ S, Party.decodeStrSet (JValue.jarr ((sortStrings l).map JValue.jstr)) =
        Except.ok S ∧ ∀ x, x ∈ S ↔ x ∈ l := by
  refine ⟨_, rfl, ?_⟩
  intro x
  have h0 := strFold_mem (sortStrings l) [] x
  have h1 : (x ∈ ([] : List String) ∨ x ∈ sortStrings l) ↔ x ∈ l := by
    simp [mem_sortStrings]
  exact h0.trans h1

/-- The keyed fold shared by `decodeTimestampMap` and `decodeRoles`
reconstructs a duplicate-free map exactly when every key is a canonically
rendered UUID and every value decodes back. -/
theorem mapFold_ok {V : Type} (dec : JValue → Except Unit V)
    (enc : V → JValue) (hdec : ∀ v : V, dec (enc v) = Except.ok v)
    (l : List (Uuid × V)) : ∀ acc : List (Uuid × V),
    (∀ kv ∈ l, kv.1 < 2 ^ 128) →
    (l.map Prod.fst).Nodup →
    (∀ kv ∈ l, dlookup acc kv.1 = none) →
    List.foldlM (fun acc kv =>
        match uuidPyParse kv.1 with
        | none => pure acc
        | some pid => do
            let n ← dec kv.2
            pure (dset acc pid n))
      acc (l.map (fun kv => (uuidStr kv.1, enc kv.2))) =
      Except.ok (acc ++ l) := by
  induction l with
  | nil =>
    intro acc _ _ _
    simp only [List.map_nil, List.foldlM_nil, List.append_nil]
    rfl
  | cons kv rest ih =>
    obtain ⟨k, v⟩ := kv
    intro acc hk hnd hdisj
    rw [List.map_cons, List.foldlM_cons]
    have hp : uuidPyParse (uuidStr k) = some k :=
      uuidPyParse_uuidStr (hk (k, v) (List.mem_cons_self _ _))
    simp only [hp, hdec, ok_bind, pure_bind_exc]
    rw [dset_absent v (hdisj (k, v) (List.mem_cons_self _ _))]
    rw [List.map_cons, List.nodup_cons] at hnd
    have hd : ∀ kv ∈ rest, dlookup (acc ++ [(k, v)]) kv.1 = none := by
      intro kv hkv
      have hmem : kv.1 ∈ rest.map Prod.fst := List.mem_map_of_mem Prod.fst hkv
      have hne : k ≠ kv.1 := fun he => hnd.1 (by rw [he]; exact hmem)
      exact dlookup_append_none (hdisj kv (List.mem_cons_of_mem _ hkv))
        (by simp [dlookup, hne])
    rw [ih (acc ++ [(k, v)]) (fun kv hkv => hk kv (List.mem_cons_of_mem _ hkv))
      hnd.2 hd]
    rw [List.append_assoc]
    rfl

theorem decodeTimestampMap_roundtrip (l : List (Uuid × Int))
    (hk : ∀ kv ∈ l, kv.1 < 2 ^ 128) (hnd : (l.map Prod.fst).Nodup) :
    Party.decodeTimestampMap
      (JValue.jobj (l.map (fun kv => (uuidStr kv.1, JValue.jint kv.2)))) =
      Except.ok l := by
  unfold Party.decodeTimestampMap
  simp only [pyDict, ok_bind]
  have h := mapFold_ok pyToInt JValue.jint (fun v => rfl) l [] hk hnd
    (fun kv _ => rfl)
  simpa using h

theorem decodeRoles_roundtrip (l : List (Uuid × PartyRole))
    (hk : ∀ kv ∈ l, kv.1 < 2 ^ 128) (hnd : (l.map Prod.fst).Nodup) :
    Party.decodeRoles
      (JValue.jobj (l.map (fun kv => (uuidStr kv.1, JValue.jstr kv.2.value)))) =
      Except.ok l := by
  unfold Party.decodeRoles
  simp only [pyDict, ok_bind]
  have h := mapFold_ok rolePyParse (fun r => JValue.jstr r.value)
    rolePyParse_value l [] hk hnd (fun kv _ => rfl)
  simpa using h

/-- Well-formedness of a `Party` value as maintained by the registry: all
identifiers are genuine 128-bit UUIDs, the five keyed maps have
duplicate-free keys, the leader is a member with the `LEADER` role, roles
cover only members, and the name is not the empty string. -/
abbrev PartyWF (p : Party) : Prop :=
  p.id < 2 ^ 128 ∧ p.leader < 2 ^ 128 ∧
  (∀ u ∈ p.members, u < 2 ^ 128) ∧
  (∀ u ∈ p.banned_players, u < 2 ^ 128) ∧
  (∀ u ∈ p.allies, u < 2 ^ 128) ∧
  (∀ kv ∈ p.invites, kv.1 < 2 ^ 128) ∧
  (∀ kv ∈ p.join_requests, kv.1 < 2 ^ 128) ∧
  (∀ kv ∈ p.roles, kv.1 < 2 ^ 128) ∧
  (∀ kv ∈ p.last_daily_reward, kv.1 < 2 ^ 128) ∧
  (∀ kv ∈ p.last_seen, kv.1 < 2 ^ 128) ∧
  (p.invites.map Prod.fst).Nodup ∧
  (p.join_requests.map Prod.fst).Nodup ∧
  (p.roles.map Prod.fst).Nodup ∧
  (p.last_daily_reward.map Prod.fst).Nodup ∧
  (p.last_seen.map Prod.fst).Nodup ∧
  p.leader ∈ p.members ∧
  dlookup p.roles p.leader = some PartyRole.LEADER ∧
  (∀ kv ∈ p.roles, kv.1 ∈ p.members) ∧
  p.name ≠ some ""

/-- The party produced by decoding `to_dict p`: identical to `p` except
that the set-valued fields come back in decode order. -/
def c2Decoded (p : Party) (M B A : List Uuid) (Ach : List String) : Party where
  id := p.id
  leader := p.leader
  members := M
  invites := p.invites
  join_requests := p.join_requests
  home := p.home
  created_at := p.created_at
  name := p.name
  is_public := p.is_public
  roles := p.roles
  banned_players := B
  total_play_time_ms := p.total_play_time_ms
  total_kills := p.total_kills
  total_deaths := p.total_deaths
  color := p.color
  icon := p.icon
  allies := A
  last_daily_reward := p.last_daily_reward
  consecutive_days := p.consecutive_days
  last_reward_date := p.last_reward_date
  achievements := Ach
  last_seen := p.last_seen

/-- C2 counterexample: the round trip is *not* the identity on every
party: serialising a party whose name is the empty string and decoding it
back yields `name = None` (`to_dict` stores `""`, and `from_dict`
evaluates `data.get("name") or None`), so the claim fails for
`name = ""`. -/
theorem C2_counterexample :
    Party.from_dict
        (Party.to_dict_fields { Party.createP 1 0 0 with name := some "" }) 0 =
      .ok (some (Party.createP 1 0 0)) ∧
    Party.name { Party.createP 1 0 0 with name := some "" } ≠
      Party.name (Party.createP 1 0 0) := by
  refine ⟨by decide, by decide⟩

/-- C2 (amended): for every *well-formed* party `p` (valid 128-bit
identifiers, duplicate-free map keys, leader a member holding the
`LEADER` role, role entries only for members, and a name that is not the
empty string), `from_dict (to_dict p)` succeeds and reproduces every
field of `p`: scalar fields, the five keyed maps, the home location and
the name come back exactly, and the four set-valued fields come back
equal as sets (membership for every candidate element).  Without the
name restriction the round trip is lossy (see the counterexample). -/
theorem C2_theorem (p : Party) (now : Int) (hWF : PartyWF p) :
    ∃ q : Party, Party.from_dict (Party.to_dict_fields p) now =
        .ok (some q) ∧
      q.id = p.id ∧ q.leader = p.leader ∧
      (∀ u, u ∈ q.members ↔ u ∈ p.members) ∧
      q.invites = p.invites ∧ q.join_requests = p.join_requests ∧
      q.home = p.home ∧ q.created_at = p.created_at ∧
      q.name = p.name ∧ q.is_public = p.is_public ∧
      q.roles = p.roles ∧
      (∀ u, u ∈ q.banned_players ↔ u ∈ p.banned_players) ∧
      q.total_play_time_ms = p.total_play_time_ms ∧
      q.total_kills = p.total_kills ∧ q.total_deaths = p.total_deaths ∧
      q.color = p.color ∧ q.icon = p.icon ∧
      (∀ u, u ∈ q.allies ↔ u ∈ p.allies) ∧
      q.last_daily_reward = p.last_daily_reward ∧
      q.consecutive_days = p.consecutive_days ∧
      q.last_reward_date = p.last_reward_date ∧
      (∀ s, s ∈ q.achievements ↔ s ∈ p.achievements) ∧
      q.last_seen = p.last_seen := by
  obtain ⟨h1, h2, h3, h4, h5, h6, h7, h8, h9, h10, h11, h12, h13, h14, h15,
    h16, h17, h18, h19⟩ := hWF
  obtain ⟨M, hM, hMm⟩ := decodeUuidSet_sorted_mem p.members h3
  obtain ⟨B, hB, hBm⟩ := decodeUuidSet_sorted_mem p.banned_players h4
  obtain ⟨A, hA, hAm⟩ := decodeUuidSet_sorted_mem p.allies h5
  obtain ⟨Ach, hAch, hAchm⟩ := decodeStrSet_sorted_mem p.achievements
  have hM' : Party.decodeUuidSet
      ((jGet (Party.to_dict_fields p) "members").getD (JValue.jarr [])) =
      Except.ok M := hM
  have hB' : Party.decodeUuidSet
      ((jGet (Party.to_dict_fields p) "banned_players").getD
        (JValue.jarr [])) = Except.ok B := hB
  have hA' : Party.decodeUuidSet
      ((jGet (Party.to_dict_fields p) "allies").getD (JValue.jarr [])) =
      Except.ok A := hA
  have hAch' : Party.decodeStrSet
      ((jGet (Party.to_dict_fields p) "achievements").getD
        (JValue.jarr [])) = Except.ok Ach := hAch
  have hInv' : Party.decodeTimestampMap
      ((jGet (Party.to_dict_fields p) "invites").getD (JValue.jobj [])) =
      Except.ok p.invites := decodeTimestampMap_roundtrip p.invites h6 h11
  have hJr' : Party.decodeTimestampMap
      ((jGet (Party.to_dict_fields p) "join_requests").getD
        (JValue.jobj [])) = Except.ok p.join_requests :=
    decodeTimestampMap_roundtrip p.join_requests h7 h12
  have hLdr' : Party.decodeTimestampMap
      ((jGet (Party.to_dict_fields p) "last_daily_reward").getD
        (JValue.jobj [])) = Except.ok p.last_daily_reward :=
    decodeTimestampMap_roundtrip p.last_daily_reward h9 h14
  have hSeen' : Party.decodeTimestampMap
      ((jGet (Party.to_dict_fields p) "last_seen").getD (JValue.jobj [])) =
      Except.ok p.last_seen := decodeTimestampMap_roundtrip p.last_seen h10 h15
  have hRoles' : Party.decodeRoles
      ((jGet (Party.to_dict_fields p) "roles").getD (JValue.jobj [])) =
      Except.ok p.roles := decodeRoles_roundtrip p.roles h8 h13
  have hff : Party.from_dict_fields p.id p.leader (Party.to_dict_fields p)
      now = Except.ok (c2Decoded p M B A Ach) := by
    unfold Party.from_dict_fields c2Decoded
    simp only [hM', hInv', hJr', hRoles', hB', hA', hLdr', hSeen', hAch',
      ok_bind]
    cases hp : p.home with
    | none =>
      have e : jGet (Party.to_dict_fields p) "home" = some JValue.jnull := by
        show some (match p.home with
          | some h => LocationData.to_dict h
          | none => JValue.jnull) = some JValue.jnull
        rw [hp]
      rw [e]
      cases hpn : p.name with
      | none =>
        have en : jGet (Party.to_dict_fields p) "name" =
            some JValue.jnull := by
          show some (match p.name with
            | some s => JValue.jstr s
            | none => JValue.jnull) = some JValue.jnull
          rw [hpn]
        rw [en]
        rfl
      | some s =>
        have en : jGet (Party.to_dict_fields p) "name" =
            some (JValue.jstr s) := by
          show some (match p.name with
            | some t => JValue.jstr t
            | none => JValue.jnull) = some (JValue.jstr s)
          rw [hpn]
        rw [en]
        have hs : s ≠ "" := fun hcon => h19 (by rw [hpn, hcon])
        have ht : JValue.pyTruthy (JValue.jstr s) = true := by
          simp [JValue.pyTruthy, hs]
        dsimp only
        rw [ht]
        rfl
    | some h =>
      have e : jGet (Party.to_dict_fields p) "home" =
          some (JValue.jobj [("level", JValue.jstr h.level),
            ("dimension", JValue.jstr h.dimension),
            ("x", JValue.jnum h.x), ("y", JValue.jnum h.y),
            ("z", JValue.jnum h.z), ("pitch", JValue.jnum h.pitch),
            ("yaw", JValue.jnum h.yaw)]) := by
        show some (match p.home with
          | some h0 => LocationData.to_dict h0
          | none => JValue.jnull) =
          some (JValue.jobj [("level", JValue.jstr h.level),
            ("dimension", JValue.jstr h.dimension),
            ("x", JValue.jnum h.x), ("y", JValue.jnum h.y),
            ("z", JValue.jnum h.z), ("pitch", JValue.jnum h.pitch),
            ("yaw", JValue.jnum h.yaw)])
        rw [hp]
        rfl
      rw [e]
      cases hpn : p.name with
      | none =>
        have en : jGet (Party.to_dict_fields p) "name" =
            some JValue.jnull := by
          show some (match p.name with
            | some s => JValue.jstr s
            | none => JValue.jnull) = some JValue.jnull
          rw [hpn]
        rw [en]
        rfl
      | some s =>
        have en : jGet (Party.to_dict_fields p) "name" =
            some (JValue.jstr s) := by
          show some (match p.name with
            | some t => JValue.jstr t
            | none => JValue.jnull) = some (JValue.jstr s)
          rw [hpn]
        rw [en]
        have hs : s ≠ "" := fun hcon => h19 (by rw [hpn, hcon])
        have ht : JValue.pyTruthy (JValue.jstr s) = true := by
          simp [JValue.pyTruthy, hs]
        dsimp only
        rw [ht]
        rfl
  have hLM : p.leader ∈ M := (hMm p.leader).mpr h16
  have e3 : p.roles.filter (fun kv => kv.1 ∈ M) = p.roles :=
    List.filter_eq_self.mpr (fun kv hkv =>
      decide_eq_true ((hMm kv.1).mpr (h18 kv hkv)))
  have hrep : Party.repairParty (c2Decoded p M B A Ach) =
      c2Decoded p M B A Ach := by
    unfold Party.repairParty c2Decoded
    dsimp only
    rw [listInsert_of_mem hLM, dset_lookup_self h17, e3]
  have hid : pyParseUuid ((jGet (Party.to_dict_fields p) "id").getD
      JValue.jnull) = some p.id := uuidPyParse_uuidStr h1
  have hleader : pyParseUuid ((jGet (Party.to_dict_fields p) "leader").getD
      JValue.jnull) = some p.leader := uuidPyParse_uuidStr h2
  refine ⟨c2Decoded p M B A Ach, ?_, rfl, rfl, hMm, rfl, rfl, rfl, rfl, rfl,
    rfl, rfl, hBm, rfl, rfl, rfl, rfl, rfl, hAm, rfl, rfl, rfl, hAchm, rfl⟩
  unfold Party.from_dict
  rw [hid, hleader]
  dsimp only
  rw [hff]
  show Except.ok (some (Party.repairParty (c2Decoded p M B A Ach))) =
    Except.ok (some (c2Decoded p M B A Ach))
  rw [hrep]

/-- A concrete well-formed party exercising every field for the C2
round-trip witness. -/
def c2Party : Party where
  id := 1
  leader := 0
  members := [0, 5]
  invites := [(7, 100)]
  join_requests := [(8, 200)]
  home := some { level := "world", dimension := "overworld",
                 x := 1, y := 2, z := 3, pitch := 0, yaw := 0 }
  created_at := 42
  name := some "The Crew"
  is_public := false
  roles := [(0, PartyRole.LEADER), (5, PartyRole.OFFICER)]
  banned_players := [9]
  total_play_time_ms := 5
  total_kills := 2
  total_deaths := 3
  color := "§c"
  icon := "!"
  allies := [11]
  last_daily_reward := [(5, 50)]
  consecutive_days := 2
  last_reward_date := 50
  achievements := ["first_blood"]
  last_seen := [(5, 60)]

theorem C2_witness :
    ∃ q : Party, Party.from_dict (Party.to_dict_fields c2Party) 0 =
        .ok (some q) ∧
      q.id = c2Party.id ∧ q.leader = c2Party.leader ∧
      (∀ u, u ∈ q.members ↔ u ∈ c2Party.members) ∧
      q.invites = c2Party.invites ∧ q.join_requests = c2Party.join_requests ∧
      q.home = c2Party.home ∧ q.created_at = c2Party.created_at ∧
      q.name = c2Party.name ∧ q.is_public = c2Party.is_public ∧
      q.roles = c2Party.roles ∧
      (∀ u, u ∈ q.banned_players ↔ u ∈ c2Party.banned_players) ∧
      q.total_play_time_ms = c2Party.total_play_time_ms ∧
      q.total_kills = c2Party.total_kills ∧
      q.total_deaths = c2Party.total_deaths ∧
      q.color = c2Party.color ∧ q.icon = c2Party.icon ∧
      (∀ u, u ∈ q.allies ↔ u ∈ c2Party.allies) ∧
      q.last_daily_reward = c2Party.last_daily_reward ∧
      q.consecutive_days = c2Party.consecutive_days ∧
      q.last_reward_date = c2Party.last_reward_date ∧
      (∀ s, s ∈ q.achievements ↔ s ∈ c2Party.achievements) ∧
      q.last_seen = c2Party.last_seen :=
  C2_theorem c2Party 0 (by decide)

end Euphoria
